import Mathlib

/-!
# Graceful shutdown: resource registry and shutdown orchestrator

A shallow embedding of `src/src/resourceManager.go` and
`src/src/shutdownOrchestrator.go`.

Conventions of the embedding

* A Go `map[string]V` is a finite map `GoMap V` (an association list with
  distinct keys).  Reading a missing key yields the zero value (`mapGet`).
  A `range` over a map visits every key exactly once in an order chosen by the
  Go runtime; that choice is an explicit argument (a list of numbers, turned
  into a permutation of the keys by `pickOrder`).
* `time.Duration` and `time.Time` are integers (nanoseconds).
* An `error` is a value of `GoError`; `nil` is `none`.  Each `fmt.Errorf` call
  site of the sources is one constructor that keeps the arguments of the call.
* A resource `Cleanup` is a Go closure with side effects.  It is a function on
  an external world `W`: it returns its error and the world it leaves behind.
  An invocation is visible as the passage from `w` to `(c w).2`.
* A task `Handler` runs in a goroutine of its own under a `select` against
  `time.After`.  It is described by what one invocation does: how long it
  takes to return (or that it never returns) and which error it returns.
  Clock readings are idealised: `time.Since(start)` read in a `select` branch
  is the instant at which that branch became ready.
* Every method of the registry and `RegisterTask` run under their mutex and
  are executed atomically.  The goroutines of `Shutdown` execute
  `so.results = append(so.results, result)` without a lock: a goroutine loads
  `so.results` and stores the extended slice later, so that it overwrites what
  other goroutines stored in between (`storeAppends`).  A slice is the list of
  its elements; torn reads and writes of a slice header are left out.
-/

/-! ## Errors -/

/-- Go `error` values.  `external` is an error produced outside this package
(by a handler or a cleanup); the other constructors are the three
`fmt.Errorf` call sites. -/
inductive GoError where
  /-- an error created by a handler or a cleanup -/
  | external (msg : String)
  /-- `fmt.Errorf("resource %s not found", name)` -/
  | notFound (name : String)
  /-- `fmt.Errorf("failed to close %s: %w", name, err)` -/
  | closeFailed (name : String) (cause : GoError)
  /-- `fmt.Errorf("task %s timed out after %v", task.Name, task.Timeout)` -/
  | timedOut (name : String) (timeout : Int)
  deriving DecidableEq, Repr

/-- The error is the one built by `CloseResource` for a missing entry. -/
def GoError.isNotFound : GoError → Bool
  | .notFound _ => true
  | _ => false

/-! ## Go maps and runtime-chosen orders -/

/-- A Go `map[string]V`. -/
abbrev GoMap (V : Type) : Type := AList (fun _ : String => V)

/-- The read `m[k]`: the stored value, or the zero value `zero` when `k` is
not a key. -/
def mapGet {V : Type} (m : GoMap V) (zero : V) (k : String) : V :=
  (m.lookup k).getD zero

/-- The order in which the runtime hands out the elements of `xs`:
each number picks (modulo the number of elements left) the next element;
when the numbers run out the rest follows in list order.  The result is
always a permutation of `xs`. -/
def pickOrder {α : Type} [DecidableEq α] : List Nat → List α → List α
  | _, [] => []
  | [], x :: xs => x :: xs
  | c :: cs, x :: xs =>
    let y := (x :: xs).getD (c % (x :: xs).length) x
    y :: pickOrder cs ((x :: xs).erase y)

/-! ## Resource registry (`resourceManager.go`) -/

/-- The Go type `ResourceType` is a string. -/
abbrev ResourceType : Type := String

def DatabasePool : ResourceType := "database_pool"
def CacheLayer : ResourceType := "cache"
def MessageQueue : ResourceType := "message_queue"
def FileHandle : ResourceType := "file_handle"

/-- The struct `Resource`.  The field `Type` of the source is `ResType` here;
`Cleanup = none` is a nil function. -/
structure Resource (W : Type) where
  Name : String
  ResType : ResourceType
  Active : Bool
  Cleanup : Option (W → Option GoError × W)

/-- The struct `ResourceManager`. -/
structure ResourceManager (W : Type) where
  resources : GoMap (Resource W)

def NewResourceManager (W : Type) : ResourceManager W :=
  { resources := ∅ }

def Register {W : Type} (rm : ResourceManager W) (name : String) (resType : ResourceType)
    (cleanup : Option (W → Option GoError × W)) : ResourceManager W :=
  { resources := rm.resources.insert name
      { Name := name, ResType := resType, Active := true, Cleanup := cleanup } }

/-- The store `res.Active = false` through the pointer kept under key `name`. -/
def markInactive {W : Type} (resources : GoMap (Resource W)) (name : String)
    (res : Resource W) : GoMap (Resource W) :=
  resources.insert name { res with Active := false }

/-- What a call of `CloseResource` leaves behind: the returned error, the
registry and the world. -/
structure CloseOutcome (W : Type) where
  err : Option GoError
  rm : ResourceManager W
  world : W

def CloseResource {W : Type} (rm : ResourceManager W) (name : String) (w : W) :
    CloseOutcome W :=
  match rm.resources.lookup name with
  | none => { err := some (.notFound name), rm := rm, world := w }
  | some res =>
    if !res.Active then { err := none, rm := rm, world := w }
    else
      match res.Cleanup with
      | some cleanup =>
        match cleanup w with
        | (some err, w') => { err := some (.closeFailed name err), rm := rm, world := w' }
        | (none, w') =>
          { err := none, rm := { resources := markInactive rm.resources name res }, world := w' }
      | none =>
        { err := none, rm := { resources := markInactive rm.resources name res }, world := w }

/-- The variables of the loop of `CloseAll`. -/
structure SweepState (W : Type) where
  resources : GoMap (Resource W)
  errors : GoMap GoError
  world : W

/-- One iteration of the loop of `CloseAll`, for the key `name`. -/
def closeAllVisit {W : Type} (st : SweepState W) (name : String) : SweepState W :=
  match st.resources.lookup name with
  | none => st
  | some res =>
    if res.Active then
      match res.Cleanup with
      | some cleanup =>
        match cleanup st.world with
        | (some err, w') => { st with errors := st.errors.insert name err, world := w' }
        | (none, w') => { st with resources := markInactive st.resources name res, world := w' }
      | none => st
    else st

/-- The loop of `CloseAll` over the keys `names`, in that order. -/
def closeAllSweep {W : Type} (st : SweepState W) (names : List String) : SweepState W :=
  names.foldl closeAllVisit st

/-- The method `CloseAll`; `order` is the runtime's choice of the iteration
order of `range rm.resources`. -/
def CloseAll {W : Type} (rm : ResourceManager W) (order : List Nat) (w : W) : SweepState W :=
  closeAllSweep { resources := rm.resources, errors := ∅, world := w }
    (pickOrder order rm.resources.keys)

/-- The method `GetActiveCount` (the count does not depend on the iteration
order, so the entries are visited as stored). -/
def GetActiveCount {W : Type} (rm : ResourceManager W) : Int :=
  rm.resources.entries.foldl (fun count e => if e.2.Active then count + 1 else count) 0

/-- The call `CloseResource(name)` made `k` times in a row: the errors the
calls return, in order, and the registry and world after the last call. -/
def closeTimes {W : Type} (name : String) :
    Nat → ResourceManager W → W → List (Option GoError) × ResourceManager W × W
  | 0, rm, w => ([], rm, w)
  | k + 1, rm, w =>
    let out := CloseResource rm name w
    let rest := closeTimes name k out.rm out.world
    (out.err :: rest.1, rest.2)

/-! ## Shutdown orchestrator (`shutdownOrchestrator.go`) -/

/-- What one invocation of a task handler (`func() error`) does: `elapsed` is
the time in nanoseconds after which it returns (`none`: it does not return),
`err` is the error it returns. -/
structure Handler where
  elapsed : Option Nat
  err : Option GoError
  deriving DecidableEq, Repr

/-- The struct `ShutdownTask`. -/
structure ShutdownTask where
  Name : String
  Handler : Handler
  DependsOn : List String
  Timeout : Int
  deriving DecidableEq, Repr

/-- The struct `TaskResult`. -/
structure TaskResult where
  Name : String
  Success : Bool
  Duration : Int
  Error : Option GoError
  deriving DecidableEq, Repr

/-- The struct `ShutdownOrchestrator` (without its mutex). -/
structure ShutdownOrchestrator where
  tasks : List ShutdownTask
  results : List TaskResult
  globalTimeout : Int
  shutdownStart : Int
  deriving DecidableEq, Repr

def NewShutdownOrchestrator (globalTimeout : Int) : ShutdownOrchestrator :=
  { tasks := [], results := [], globalTimeout := globalTimeout, shutdownStart := 0 }

def RegisterTask (so : ShutdownOrchestrator) (task : ShutdownTask) : ShutdownOrchestrator :=
  { so with tasks := so.tasks ++ [task] }

def GetResults (so : ShutdownOrchestrator) : List TaskResult :=
  so.results

/-- The zero value `ShutdownTask{}`, which a read of `taskMap` yields for a
missing key.  Its handler is nil in Go; the read never misses (every queued
name is a key of `taskMap`), so the handler given here is never run. -/
def zeroTask : ShutdownTask :=
  { Name := "", Handler := { elapsed := none, err := none }, DependsOn := [], Timeout := 0 }

/-- The three maps built by the first loop of `buildExecutionOrder`. -/
structure DepGraph where
  depCount : GoMap Int
  taskMap : GoMap ShutdownTask
  dependents : GoMap (List String)

/-- The inner loop `for _, dep := range t.DependsOn`:
`dependents[dep] = append(dependents[dep], t.Name)`. -/
def addDependents (dependents : GoMap (List String)) (name : String) :
    List String → GoMap (List String)
  | [] => dependents
  | dep :: rest =>
    addDependents (dependents.insert dep (mapGet dependents [] dep ++ [name])) name rest

/-- The body of the first loop of `buildExecutionOrder` for the task `t`. -/
def indexTask (g : DepGraph) (t : ShutdownTask) : DepGraph :=
  { taskMap := g.taskMap.insert t.Name t
    depCount := g.depCount.insert t.Name (t.DependsOn.length : Int)
    dependents := addDependents g.dependents t.Name t.DependsOn }

/-- The first loop of `buildExecutionOrder`. -/
def indexTasks (tasks : List ShutdownTask) : DepGraph :=
  tasks.foldl indexTask { depCount := ∅, taskMap := ∅, dependents := ∅ }

/-- The variables of the queue loop of `buildExecutionOrder`. -/
structure KahnState where
  depCount : GoMap Int
  queue : List String
  ordered : List ShutdownTask

/-- The inner loop `for _, dep := range dependents[name]`: decrement the count
of `dep` and enqueue it when the count has become zero. -/
def releaseDependents (depCount : GoMap Int) (queue : List String) :
    List String → GoMap Int × List String
  | [] => (depCount, queue)
  | dep :: rest =>
    let depCount' := depCount.insert dep (mapGet depCount 0 dep - 1)
    let queue' := if mapGet depCount' 0 dep = 0 then queue ++ [dep] else queue
    releaseDependents depCount' queue' rest

/-- One iteration of `for len(queue) > 0`, for the queue `name :: rest`. -/
def kahnStep (g : DepGraph) (st : KahnState) (name : String) (rest : List String) :
    KahnState :=
  let released := releaseDependents st.depCount rest (mapGet g.dependents [] name)
  { depCount := released.1
    queue := released.2
    ordered := st.ordered ++ [mapGet g.taskMap zeroTask name] }

/-- The loop `for len(queue) > 0`, run for at most `fuel` iterations. -/
def drainQueue (g : DepGraph) : Nat → KahnState → KahnState
  | 0, st => st
  | fuel + 1, st =>
    match st.queue with
    | [] => st
    | name :: rest => drainQueue g fuel (kahnStep g st name rest)

/-- The queue after `for name, count := range depCount`, the keys being
visited in the order `keys`. -/
def initialQueue (depCount : GoMap Int) (keys : List String) : List String :=
  keys.filter (fun name => decide (mapGet depCount 0 name = 0))

/-- The state of `buildExecutionOrder` when the queue loop ends.  `mapOrder`
is the runtime's choice of the iteration order of `range depCount`.  Every
iteration of the queue loop dequeues a name that was never dequeued before, so
`len(so.tasks)` iterations are enough for the loop to end
(`buildExecutionOrder_queue_empty`). -/
def kahnFinal (tasks : List ShutdownTask) (mapOrder : List Nat) : KahnState :=
  let g := indexTasks tasks
  drainQueue g tasks.length
    { depCount := g.depCount
      queue := initialQueue g.depCount (pickOrder mapOrder g.depCount.keys)
      ordered := [] }

/-- The method `buildExecutionOrder`. -/
def buildExecutionOrder (so : ShutdownOrchestrator) (mapOrder : List Nat) :
    List ShutdownTask :=
  (kahnFinal so.tasks mapOrder).ordered

/-- The instant, counted from `start := time.Now()`, at which the channel of
`time.After(timeout)` delivers: a duration that is not positive expires at
once. -/
def timerFires (timeout : Int) : Nat :=
  timeout.toNat

/-- The branch of the `select` in `executeTask` that is taken, with the
reading of `time.Since(start)` in it. -/
inductive SelectCase where
  /-- `case err := <-done` -/
  | done (err : Option GoError) (since : Nat)
  /-- `case <-time.After(task.Timeout)` -/
  | timer (since : Nat)
  deriving DecidableEq, Repr

/-- Which branch of the `select` runs.  The branch that becomes ready first
runs; when both become ready at the same instant Go picks one at random, and
`preferDone` is that pick. -/
def selectCase (h : Handler) (timeout : Int) (preferDone : Bool) : SelectCase :=
  match h.elapsed with
  | none => .timer (timerFires timeout)
  | some e =>
    if e < timerFires timeout then .done h.err e
    else if timerFires timeout < e then .timer (timerFires timeout)
    else if preferDone then .done h.err e
    else .timer (timerFires timeout)

/-- The method `executeTask`. -/
def executeTask (task : ShutdownTask) (preferDone : Bool) : TaskResult :=
  match selectCase task.Handler task.Timeout preferDone with
  | .done err since =>
    { Name := task.Name, Success := err.isNone, Duration := since, Error := err }
  | .timer since =>
    { Name := task.Name, Success := false, Duration := since,
      Error := some (.timedOut task.Name task.Timeout) }

/-- The choices the Go runtime makes during one call of `Shutdown`. -/
structure Runtime where
  /-- iteration order of `range depCount` -/
  mapOrder : List Nat
  /-- order in which the goroutines store into `so.results` -/
  appendOrder : List Nat
  /-- for each store into `so.results`, in the order of the stores: how many
  of the stores before it the goroutine missed, because it had loaded
  `so.results` before they happened (0 when the list runs out) -/
  stale : List Nat
  /-- delay between the entry of `Shutdown` and the moment the goroutine of
  the named task calls `executeTask` -/
  latency : String → Nat
  /-- pick of the `select` of the named task when both branches are ready -/
  preferDone : String → Bool
  /-- clock reading at the entry of `Shutdown` -/
  now : Int
  /-- time that passes between the two calls of `time.Now()` that follow
  `wg.Wait()` -/
  checkDelay : Nat

/-- The life of one goroutine started by `Shutdown`. -/
structure TaskRun where
  task : ShutdownTask
  /-- clock reading of `start := time.Now()` in `executeTask`: the handler
  is started at this instant -/
  started : Int
  result : TaskResult
  deriving DecidableEq, Repr

/-- The instant at which the goroutine has its result. -/
def TaskRun.finished (r : TaskRun) : Int :=
  r.started + r.result.Duration

/-- What a call of `Shutdown` does. -/
structure ShutdownRun where
  /-- the orchestrator after the call -/
  so : ShutdownOrchestrator
  /-- the returned slice -/
  returned : List TaskResult
  /-- the goroutines of the call, in launch order -/
  runs : List TaskRun
  /-- the local variable `deadline` -/
  deadline : Int
  /-- whether the warning line is printed -/
  warned : Bool

/-- The goroutine `go func(t ShutdownTask) { ... }(task)`: nothing is awaited
before `executeTask` is called. -/
def launch (rt : Runtime) (t : ShutdownTask) : TaskRun :=
  { task := t
    started := rt.now + rt.latency t.Name
    result := executeTask t (rt.preferDone t.Name) }

/-- The clock reading after `wg.Wait()`: the latest instant at which a
goroutine finished (the entry instant when there is none). -/
def waitDone (now : Int) (runs : List TaskRun) : Int :=
  runs.foldl (fun latest r => max latest r.finished) now

/-- One store of `so.results = append(so.results, result)`.  `history` holds
the values that `so.results` has had, the current one first and the one at the
entry of `Shutdown` last.  The storing goroutine loaded `so.results` when
`miss` of the stores before its own had not happened yet, and stores that
slice extended by its result. -/
def storeAppend (history : List (List TaskResult)) (miss : Nat) (result : TaskResult) :
    List (List TaskResult) :=
  (history.getD (min miss (history.length - 1)) [] ++ [result]) :: history

/-- The stores of the goroutines, `stored` being their results in the order of
the stores. -/
def storeAppends : List Nat → List (List TaskResult) → List TaskResult →
    List (List TaskResult)
  | _, history, [] => history
  | stale, history, r :: rs =>
    storeAppends stale.tail (storeAppend history (stale.headD 0) r) rs

/-- The value of `so.results` after `wg.Wait()`. -/
def racedResults (initial : List TaskResult) (stale : List Nat) (stored : List TaskResult) :
    List TaskResult :=
  (storeAppends stale [initial] stored).headD initial

/-- The method `Shutdown`.  The goroutines are launched in the order of
`ordered`; they store their results in an order chosen by the runtime, each
on the slice it loaded.  `shutdownStart` is the clock reading after
`wg.Wait()`, and the second `time.Now()` is read `checkDelay` later. -/
def Shutdown (so : ShutdownOrchestrator) (rt : Runtime) : ShutdownRun :=
  let ordered := buildExecutionOrder so rt.mapOrder
  let runs := ordered.map (launch rt)
  let results := racedResults so.results rt.stale
    (pickOrder rt.appendOrder (runs.map (fun r => r.result)))
  let shutdownStart := waitDone rt.now runs
  let deadline := shutdownStart + so.globalTimeout
  { so := { so with results := results, shutdownStart := shutdownStart }
    returned := results
    runs := runs
    deadline := deadline
    warned := decide (deadline < shutdownStart + rt.checkDelay) }

/-- The orchestrator `so` after `tasks` have been registered on it one by one. -/
def registerAll (so : ShutdownOrchestrator) (tasks : List ShutdownTask) :
    ShutdownOrchestrator :=
  tasks.foldl RegisterTask so

/-! ## Notions used in the statements -/

/-- The registry held by the loop variables of `CloseAll` once the loop is over. -/
def SweepState.rm {W : Type} (st : SweepState W) : ResourceManager W :=
  { resources := st.resources }

/-- The cleanup that a sweep of `CloseAll` has to run for an entry: the entry's
cleanup when the entry is active and has one, nothing otherwise
(`res.Active && res.Cleanup != nil`). -/
def dueCleanup {W : Type} (res : Resource W) : Option (W → Option GoError × W) :=
  if res.Active then res.Cleanup else none

/-- Every value that `so.results` has had during the stores of a run is the
slice `initial` found at the entry of `Shutdown` followed by some of the
results `done` stored so far, in the order of their stores. -/
def Traced (initial done : List TaskResult) (history : List (List TaskResult)) : Prop :=
  ∀ h ∈ history, ∃ kept, h = initial ++ kept ∧ kept.Sublist done

/-- No goroutine of the run misses a store of another: every
`so.results = append(so.results, result)` works on the slice left by the
stores before it. -/
def SerialAppends (rt : Runtime) : Prop :=
  ∀ miss ∈ rt.stale, miss = 0

/-- The names of the tasks, in registration order. -/
def taskNames (tasks : List ShutdownTask) : List String :=
  tasks.map (fun t => t.Name)

/-- Every name listed in a `DependsOn` is the name of a registered task. -/
def DepsRegistered (tasks : List ShutdownTask) : Prop :=
  ∀ t ∈ tasks, ∀ d ∈ t.DependsOn, d ∈ taskNames tasks

/-- Some task named `a` lists `b` in its `DependsOn`. -/
def DependsEdge (tasks : List ShutdownTask) (a b : String) : Prop :=
  ∃ t ∈ tasks, t.Name = a ∧ b ∈ t.DependsOn

/-- The name `n` depends on itself through one or more dependency edges. -/
def OnCycle (tasks : List ShutdownTask) (n : String) : Prop :=
  Relation.TransGen (DependsEdge tasks) n n

/-- The dependency relation has no cycle. -/
def Acyclic (tasks : List ShutdownTask) : Prop :=
  ∀ n, ¬ OnCycle tasks n

/-- The content of `dependents[x]` after the first loop of
`buildExecutionOrder`: the name of each task, once for every occurrence of `x`
in its `DependsOn`. -/
def dependentsOf : List ShutdownTask → String → List String
  | [], _ => []
  | t :: ts, x => List.replicate (t.DependsOn.count x) t.Name ++ dependentsOf ts x

/-- The names dequeued so far. -/
def processed (st : KahnState) : List String :=
  st.ordered.map (fun t => t.Name)

/-- Invariant of the queue loop of `buildExecutionOrder`, for every task list. -/
structure KahnInv (tasks : List ShutdownTask) (st : KahnState) : Prop where
  nodup : (processed st ++ st.queue).Nodup
  nonpos : ∀ n ∈ processed st ++ st.queue, mapGet st.depCount 0 n ≤ 0
  known : ∀ n ∈ processed st ++ st.queue, n ∈ taskNames tasks
  seen : ∀ n ∈ taskNames tasks, mapGet st.depCount 0 n = 0 → n ∈ processed st ++ st.queue
  registered : ∀ t ∈ st.ordered, t ∈ tasks

/-- Invariant of the queue loop when the task names are pairwise distinct: the
counter of a task is the number of its dependencies not yet dequeued, and a
dequeued task comes after all its dependencies. -/
structure KahnInvDistinct (tasks : List ShutdownTask) (st : KahnState) : Prop where
  pending : ∀ t ∈ tasks, mapGet st.depCount 0 t.Name
    = ((t.DependsOn.countP (fun d => decide (d ∉ processed st)) : Nat) : Int)
  topo : ∀ p t s, st.ordered = p ++ t :: s → ∀ d ∈ t.DependsOn, d ∈ p.map (fun t => t.Name)

/-- How a close operation may change what the registry holds under a name:
nothing at all, or the active flag of the entry goes from true to false. -/
def ClosedFrom {W : Type} (old new : Option (Resource W)) : Prop :=
  new = old ∨ ∃ res, old = some res ∧ res.Active = true ∧ new = some { res with Active := false }

/-- Two task lists declare the same dependency graph: position by position the
tasks have the same name and the same `DependsOn`; handlers and timeouts are
free. -/
def SameGraph (a b : List ShutdownTask) : Prop :=
  List.Forall₂ (fun x y => x.Name = y.Name ∧ x.DependsOn = y.DependsOn) a b

/-- The number of times the counter of `n` has been decremented once the names
`dequeued` have been dequeued. -/
def released (tasks : List ShutdownTask) (dequeued : List String) (n : String) : Nat :=
  (dequeued.map (fun x => (dependentsOf tasks x).count n)).sum

/-- Invariant of the queue loop of `buildExecutionOrder`, for every task list:
a counter is its first value minus the decrements received, and a name whose
counter is used up has been queued. -/
structure KahnInvCount (tasks : List ShutdownTask) (st : KahnState) : Prop where
  counter : ∀ n, mapGet st.depCount 0 n
    = mapGet (indexTasks tasks).depCount 0 n - ((released tasks (processed st) n : Nat) : Int)
  due : ∀ n ∈ taskNames tasks, mapGet st.depCount 0 n ≤ 0 → n ∈ processed st ++ st.queue

/-! ## Sample inputs -/

/-- Milliseconds in nanoseconds. -/
def ms (n : Nat) : Nat := n * 1000000

/-- A cleanup that succeeds; the world counts the cleanup invocations. -/
def countingOk : Nat → Option GoError × Nat :=
  fun w => (none, w + 1)

/-- A cleanup that fails. -/
def countingFail : Nat → Option GoError × Nat :=
  fun w => (some (.external "disk full"), w + 1)

/-- A cleanup that fails on its first invocation and succeeds afterwards. -/
def countingFlaky : Nat → Option GoError × Nat :=
  fun w => (if w = 0 then some (.external "busy") else none, w + 1)

/-- A registry with one failing and one succeeding cleanup. -/
def mixedRegistry : ResourceManager Nat :=
  Register (Register (NewResourceManager Nat) "db" DatabasePool (some countingFail))
    "cache" CacheLayer (some countingOk)

/-- A registry whose only resource has no cleanup. -/
def bareRegistry : ResourceManager Nat :=
  Register (NewResourceManager Nat) "fh" FileHandle none

/-- The entry of `flakyRegistry`. -/
def flakyEntry : Resource Nat :=
  { Name := "db", ResType := DatabasePool, Active := true, Cleanup := some countingFlaky }

/-- A registry whose only resource fails to close once. -/
def flakyRegistry : ResourceManager Nat :=
  Register (NewResourceManager Nat) "db" DatabasePool (some countingFlaky)

/-- A task without dependencies whose handler takes 200ms. -/
def drainTask : ShutdownTask :=
  { Name := "drain", Handler := { elapsed := some (ms 200), err := none }, DependsOn := [],
    Timeout := ms 1000 }

/-- A task that depends on `drainTask`. -/
def closeDBTask : ShutdownTask :=
  { Name := "closeDB", Handler := { elapsed := some (ms 200), err := none },
    DependsOn := ["drain"], Timeout := ms 1000 }

/-- Two tasks that depend on each other. -/
def cyclicTasks : List ShutdownTask :=
  [ { Name := "closeDB", Handler := { elapsed := some (ms 5), err := none },
      DependsOn := ["flushCache"], Timeout := ms 1000 },
    { Name := "flushCache", Handler := { elapsed := some (ms 5), err := none },
      DependsOn := ["closeDB"], Timeout := ms 1000 } ]

/-- A task whose handler sleeps 200ms under a timeout of 50ms. -/
def sleepyTask : ShutdownTask :=
  { Name := "drain", Handler := { elapsed := some (ms 200), err := none }, DependsOn := [],
    Timeout := ms 50 }

/-- A task registered with a timeout of minus one second. -/
def hastyTask : ShutdownTask :=
  { Name := "flush", Handler := { elapsed := some (ms 10), err := none }, DependsOn := [],
    Timeout := -1000000000 }

/-- A global timeout of 100ms and a chain of two tasks of 200ms each. -/
def chainOrchestrator : ShutdownOrchestrator :=
  registerAll (NewShutdownOrchestrator (ms 100)) [drainTask, closeDBTask]

/-- A runtime that starts every goroutine at once, at clock reading 0, and in
which no goroutine misses a store of another. -/
def promptRuntime : Runtime :=
  { mapOrder := [], appendOrder := [], stale := [], latency := fun _ => 0,
    preferDone := fun _ => true, now := 0, checkDelay := 100 }

/-- The runtime `promptRuntime`, except that the goroutine that stores second
had loaded `so.results` before the first store. -/
def racyRuntime : Runtime :=
  { promptRuntime with stale := [0, 1] }

/-- A task without dependencies whose handler takes 5ms. -/
def flushTask : ShutdownTask :=
  { Name := "flush", Handler := { elapsed := some (ms 5), err := none }, DependsOn := [],
    Timeout := ms 1000 }

/-- The task `drainTask` with a handler that takes 5ms. -/
def quickDrainTask : ShutdownTask :=
  { Name := "drain", Handler := { elapsed := some (ms 5), err := none }, DependsOn := [],
    Timeout := ms 1000 }

/-- A cleanup that must not run any more once its entry has been replaced. -/
def staleCleanup : Nat → Option GoError × Nat :=
  fun w => (some (.external "stale"), w + 100)

/-- A task that names a dependency nobody registered. -/
def ghostTask : ShutdownTask :=
  { Name := "closeDB", Handler := { elapsed := some (ms 5), err := none },
    DependsOn := ["ghost"], Timeout := ms 1000 }

/-- A task list with a self-dependency, a cycle, an unregistered dependency
and a duplicate name. -/
def messyTasks : List ShutdownTask :=
  [ { Name := "A", Handler := { elapsed := some 1, err := none }, DependsOn := ["A"],
      Timeout := 10 },
    { Name := "B", Handler := { elapsed := some 1, err := none }, DependsOn := ["C"],
      Timeout := 10 },
    { Name := "C", Handler := { elapsed := some 1, err := none }, DependsOn := ["B"],
      Timeout := 10 },
    { Name := "D", Handler := { elapsed := some 1, err := none }, DependsOn := ["ghost"],
      Timeout := 10 },
    { Name := "E", Handler := { elapsed := some 1, err := none }, DependsOn := [],
      Timeout := 10 },
    { Name := "E", Handler := { elapsed := some 2, err := none }, DependsOn := [],
      Timeout := 10 },
    { Name := "F", Handler := { elapsed := some 1, err := none }, DependsOn := ["E"],
      Timeout := 10 } ]

/-! ## Go maps and runtime-chosen orders: basic facts -/

/-- Reading the key that was just written. -/
theorem mapGet_insert_same {V : Type} (m : GoMap V) (zero : V) (k : String) (v : V) :
    mapGet (m.insert k v) zero k = v := by
  simp [mapGet, AList.lookup_insert]

/-- A write leaves the other keys as they are. -/
theorem mapGet_insert_other {V : Type} (m : GoMap V) (zero : V) {k x : String} (v : V)
    (h : x ≠ k) : mapGet (m.insert k v) zero x = mapGet m zero x := by
  simp [mapGet, AList.lookup_insert_ne h]

/-- Every read of an empty map yields the zero value. -/
theorem mapGet_empty {V : Type} (zero : V) (k : String) : mapGet (∅ : GoMap V) zero k = zero := by
  simp [mapGet]

/-- The order handed out by the runtime is a permutation. -/
theorem pickOrder_perm {α : Type} [DecidableEq α] (cs : List Nat) :
    ∀ xs : List α, (pickOrder cs xs).Perm xs := by
  induction cs with
  | nil => intro xs; cases xs <;> simp [pickOrder]
  | cons c cs ih =>
    intro xs
    cases xs with
    | nil => simp [pickOrder]
    | cons x xs =>
      simp only [pickOrder]
      have hlt : c % (x :: xs).length < (x :: xs).length := Nat.mod_lt _ (by simp)
      have hmem : (x :: xs).getD (c % (x :: xs).length) x ∈ x :: xs := by
        rw [List.getD_eq_getElem _ _ hlt]
        exact List.getElem_mem _
      exact ((ih _).cons _).trans (List.perm_cons_erase hmem).symm



/-! ## The maps built by `buildExecutionOrder` -/

/-- The inner loop over `t.DependsOn` appends the task name to `dependents[x]`
once for every occurrence of `x`. -/
theorem mapGet_addDependents (name : String) (deps : List String) :
    ∀ (m : GoMap (List String)) (x : String),
      mapGet (addDependents m name deps) [] x
        = mapGet m [] x ++ List.replicate (deps.count x) name := by
  induction deps with
  | nil => intro m x; simp [addDependents]
  | cons dep rest ih =>
    intro m x
    simp only [addDependents]
    rw [ih]
    by_cases hx : x = dep
    · subst hx
      rw [mapGet_insert_same, List.count_cons_self, List.replicate_succ]
      simp
    · rw [mapGet_insert_other _ _ _ hx, List.count_cons_of_ne hx]

/-- The first loop of `buildExecutionOrder`, unfolded at the last task. -/
theorem indexTasks_snoc (ts : List ShutdownTask) (t : ShutdownTask) :
    indexTasks (ts ++ [t]) = indexTask (indexTasks ts) t := by
  simp [indexTasks, List.foldl_append]

/-- The function `dependentsOf`, unfolded at the last task. -/
theorem dependentsOf_snoc (ts : List ShutdownTask) (t : ShutdownTask) (x : String) :
    dependentsOf (ts ++ [t]) x
      = dependentsOf ts x ++ List.replicate (t.DependsOn.count x) t.Name := by
  induction ts with
  | nil => simp [dependentsOf]
  | cons a rest ih => simp [dependentsOf, ih]

/-- The map `dependents` holds what `dependentsOf` describes. -/
theorem indexTasks_dependents (tasks : List ShutdownTask) (x : String) :
    mapGet (indexTasks tasks).dependents [] x = dependentsOf tasks x := by
  induction tasks using List.reverseRecOn with
  | nil => simp [indexTasks, dependentsOf, mapGet_empty]
  | append_singleton ts t ih =>
    rw [indexTasks_snoc, dependentsOf_snoc, ← ih]
    simp only [indexTask]
    exact mapGet_addDependents _ _ _ _

/-- A name in `dependents[x]` is the name of a task that lists `x`. -/
theorem mem_dependentsOf {tasks : List ShutdownTask} {x n : String}
    (h : n ∈ dependentsOf tasks x) : ∃ t ∈ tasks, t.Name = n ∧ x ∈ t.DependsOn := by
  induction tasks with
  | nil => simp [dependentsOf] at h
  | cons a rest ih =>
    simp only [dependentsOf, List.mem_append] at h
    rcases h with h | h
    · have h' := List.mem_replicate.mp h
      exact ⟨a, by simp, h'.2.symm, List.count_pos_iff.mp (Nat.pos_of_ne_zero h'.1)⟩
    · obtain ⟨t, ht, hn, hx⟩ := ih h
      exact ⟨t, List.mem_cons_of_mem _ ht, hn, hx⟩

/-- Membership in `taskNames`. -/
theorem mem_taskNames {tasks : List ShutdownTask} {n : String} :
    n ∈ taskNames tasks ↔ ∃ t ∈ tasks, t.Name = n := by
  simp [taskNames]

/-- With distinct names, a task occurs in `dependents[x]` as often as `x`
occurs in its `DependsOn`. -/
theorem count_dependentsOf {tasks : List ShutdownTask} (hd : (taskNames tasks).Nodup)
    {t : ShutdownTask} (ht : t ∈ tasks) (x : String) :
    (dependentsOf tasks x).count t.Name = t.DependsOn.count x := by
  induction tasks with
  | nil => simp at ht
  | cons a rest ih =>
    have hd0 : (a.Name :: taskNames rest).Nodup := hd
    have hd1 := List.nodup_cons.mp hd0
    have hd' : (¬ ∃ t' ∈ rest, t'.Name = a.Name) ∧ (taskNames rest).Nodup :=
      ⟨fun h => hd1.1 (mem_taskNames.mpr h), hd1.2⟩
    have hrest : (taskNames rest).Nodup := hd'.2
    simp only [dependentsOf, List.count_append]
    rcases List.mem_cons.mp ht with h | h
    · subst h
      have h0 : (dependentsOf rest x).count t.Name = 0 := by
        refine List.count_eq_zero.mpr (fun hm => ?_)
        obtain ⟨t', ht', hn, _⟩ := mem_dependentsOf hm
        exact hd'.1 ⟨t', ht', hn⟩
      rw [h0, List.count_replicate_self]
      simp
    · have hne : a.Name ≠ t.Name := fun he => hd'.1 ⟨t, h, he.symm⟩
      have h0 : (List.replicate (a.DependsOn.count x) a.Name).count t.Name = 0 := by
        refine List.count_eq_zero.mpr (fun hm => ?_)
        exact hne (List.mem_replicate.mp hm).2.symm
      rw [h0, ih hrest h]
      simp

/-- The keys of `depCount` are the task names. -/
theorem indexTasks_depCount_keys (tasks : List ShutdownTask) (n : String) :
    n ∈ (indexTasks tasks).depCount.keys ↔ n ∈ taskNames tasks := by
  induction tasks using List.reverseRecOn with
  | nil => simp [indexTasks, taskNames]
  | append_singleton ts t ih =>
    rw [indexTasks_snoc]
    simp only [indexTask, ← AList.mem_keys, AList.mem_insert]
    rw [AList.mem_keys, ih]
    simp only [taskNames, List.map_append, List.map_cons, List.map_nil, List.mem_append,
      List.mem_singleton]
    tauto

/-- A task stored in `taskMap` is registered and sits under its own name. -/
theorem indexTasks_taskMap_some (tasks : List ShutdownTask) (n : String) (t : ShutdownTask)
    (h : (indexTasks tasks).taskMap.lookup n = some t) : t.Name = n ∧ t ∈ tasks := by
  induction tasks using List.reverseRecOn with
  | nil => simp [indexTasks] at h
  | append_singleton ts a ih =>
    rw [indexTasks_snoc] at h
    simp only [indexTask] at h
    by_cases hn : n = a.Name
    · subst hn
      rw [AList.lookup_insert] at h
      cases h
      exact ⟨rfl, by simp⟩
    · rw [AList.lookup_insert_ne hn] at h
      exact ⟨(ih h).1, List.mem_append_left _ (ih h).2⟩

/-- Every task name is a key of `taskMap`. -/
theorem indexTasks_taskMap_mem (tasks : List ShutdownTask) (n : String)
    (h : n ∈ taskNames tasks) : ∃ t, (indexTasks tasks).taskMap.lookup n = some t := by
  induction tasks using List.reverseRecOn with
  | nil => simp [taskNames] at h
  | append_singleton ts a ih =>
    rw [indexTasks_snoc]
    simp only [indexTask]
    by_cases hn : n = a.Name
    · subst hn
      exact ⟨a, AList.lookup_insert _⟩
    · rw [AList.lookup_insert_ne hn]
      refine ih ?_
      simp only [taskNames, List.map_append, List.mem_append, List.map_cons, List.map_nil,
        List.mem_singleton] at h
      rcases h with h | h
      · exact h
      · exact absurd h hn

/-- With distinct names, `taskMap` and `depCount` hold every task and the
length of its `DependsOn`. -/
theorem indexTasks_lookup_distinct {tasks : List ShutdownTask} (hd : (taskNames tasks).Nodup)
    {t : ShutdownTask} (ht : t ∈ tasks) :
    (indexTasks tasks).taskMap.lookup t.Name = some t ∧
    (indexTasks tasks).depCount.lookup t.Name = some (t.DependsOn.length : Int) := by
  induction tasks using List.reverseRecOn with
  | nil => simp at ht
  | append_singleton ts a ih =>
    rw [indexTasks_snoc]
    simp only [indexTask]
    have hd' : (taskNames ts).Nodup ∧ a.Name ∉ taskNames ts := by
      have hd0 : (taskNames ts ++ [a.Name]).Nodup := by simpa [taskNames] using hd
      have := List.nodup_append.mp hd0
      exact ⟨this.1, fun hm => this.2.2 hm (by simp)⟩
    rcases List.mem_append.mp ht with h | h
    · have hne : t.Name ≠ a.Name := fun he => hd'.2 (he ▸ mem_taskNames.mpr ⟨t, h, rfl⟩)
      rw [AList.lookup_insert_ne hne, AList.lookup_insert_ne hne]
      exact ih hd'.1 h
    · have : t = a := by simpa using h
      subst this
      exact ⟨AList.lookup_insert _, AList.lookup_insert _⟩


/-! ## The queue loop of `buildExecutionOrder` -/

/-- The inner loop over `dependents[name]` in closed form: every counter is
lowered by the number of occurrences of its name, and the names appended to
the queue are those whose counter passes from a positive value to zero, each
once. -/
theorem releaseDependents_spec (deps : List String) :
    ∀ (dc : GoMap Int) (q : List String),
      (∀ n, mapGet (releaseDependents dc q deps).1 0 n
          = mapGet dc 0 n - ((deps.count n : Nat) : Int)) ∧
      ∃ added, (releaseDependents dc q deps).2 = q ++ added ∧ added.Nodup ∧
        ∀ n, n ∈ added ↔
          (n ∈ deps ∧ 0 < mapGet dc 0 n ∧ mapGet dc 0 n ≤ ((deps.count n : Nat) : Int)) := by
  induction deps with
  | nil =>
    intro dc q
    refine ⟨fun n => by simp [releaseDependents], [], by simp [releaseDependents], List.nodup_nil, ?_⟩
    intro n; simp
  | cons dep rest ih =>
    intro dc q
    simp only [releaseDependents]
    set dc1 := dc.insert dep (mapGet dc 0 dep - 1) with hdc1
    have hsame : mapGet dc1 0 dep = mapGet dc 0 dep - 1 := mapGet_insert_same _ _ _ _
    have hother : ∀ n, n ≠ dep → mapGet dc1 0 n = mapGet dc 0 n :=
      fun n hn => mapGet_insert_other _ _ _ hn
    obtain ⟨hval, added, hq, hnd, hmem⟩ :=
      ih dc1 (if mapGet dc1 0 dep = 0 then q ++ [dep] else q)
    refine ⟨fun n => ?_, ?_⟩
    · rw [hval n]
      by_cases hn : n = dep
      · subst hn
        rw [hsame, List.count_cons_self]
        push_cast; ring
      · rw [hother n hn, List.count_cons_of_ne hn]
    · by_cases hz : mapGet dc1 0 dep = 0
      · have hone : mapGet dc 0 dep = 1 := by rw [hsame] at hz; omega
        refine ⟨dep :: added, ?_, ?_, fun n => ?_⟩
        · rw [hq, if_pos hz]; simp
        · refine List.nodup_cons.mpr ⟨fun h => ?_, hnd⟩
          have := ((hmem dep).mp h).2.1
          rw [hz] at this
          exact lt_irrefl _ this
        · by_cases hn : n = dep
          · subst hn
            simp only [List.mem_cons, true_or, List.count_cons_self, hone, true_and]
            refine ⟨fun _ => ⟨by norm_num, by push_cast; omega⟩, fun _ => trivial⟩
          · rw [List.mem_cons, hmem n, hother n hn, List.mem_cons,
              List.count_cons_of_ne hn]
            simp [hn]
      · have hne : mapGet dc 0 dep ≠ 1 := by rw [hsame] at hz; omega
        refine ⟨added, ?_, hnd, fun n => ?_⟩
        · rw [hq, if_neg hz]
        · by_cases hn : n = dep
          · subst hn
            rw [hmem n, hsame, List.count_cons_self]
            simp only [List.mem_cons, true_or, true_and]
            constructor
            · rintro ⟨_, h1, h2⟩
              exact ⟨by omega, by push_cast; omega⟩
            · rintro ⟨h1, h2⟩
              have h3 : 0 < List.count n rest := by
                push_cast at h2; omega
              exact ⟨List.count_pos_iff.mp h3, by omega, by push_cast at h2; omega⟩
          · rw [hmem n, hother n hn, List.mem_cons,
              List.count_cons_of_ne hn]
            simp [hn]

/-- The read `taskMap[n]` of a task name never misses. -/
theorem taskMap_read (tasks : List ShutdownTask) {n : String} (hn : n ∈ taskNames tasks) :
    (mapGet (indexTasks tasks).taskMap zeroTask n).Name = n ∧
    mapGet (indexTasks tasks).taskMap zeroTask n ∈ tasks := by
  obtain ⟨t, ht⟩ := indexTasks_taskMap_mem tasks n hn
  have := indexTasks_taskMap_some tasks n t ht
  simp only [mapGet, ht, Option.getD_some]
  exact this

/-- One iteration of the queue loop dequeues the head of the queue. -/
theorem processed_kahnStep (tasks : List ShutdownTask) (st : KahnState) (name : String)
    (rest : List String) (hn : name ∈ taskNames tasks) :
    processed (kahnStep (indexTasks tasks) st name rest) = processed st ++ [name] := by

  simp [processed, kahnStep, (taskMap_read tasks hn).1]

/-- One iteration of the queue loop keeps the invariant. -/
theorem kahnStep_inv (tasks : List ShutdownTask) (st : KahnState) (name : String)
    (rest : List String) (hq : st.queue = name :: rest) (inv : KahnInv tasks st) :
    KahnInv tasks (kahnStep (indexTasks tasks) st name rest) := by
  have hname : name ∈ taskNames tasks := inv.known name (by simp [hq])
  have hproc := processed_kahnStep tasks st name rest hname
  obtain ⟨hval, added, hadd, hnd, hmem⟩ :=
    releaseDependents_spec (mapGet (indexTasks tasks).dependents [] name) st.depCount rest
  have hqueue : (kahnStep (indexTasks tasks) st name rest).queue = rest ++ added := hadd
  have hdc : ∀ n, mapGet (kahnStep (indexTasks tasks) st name rest).depCount 0 n
      = mapGet st.depCount 0 n
        - (((mapGet (indexTasks tasks).dependents [] name).count n : Nat) : Int) := hval
  have hall : processed (kahnStep (indexTasks tasks) st name rest)
        ++ (kahnStep (indexTasks tasks) st name rest).queue
      = (processed st ++ st.queue) ++ added := by
    rw [hproc, hqueue, hq]; simp
  have hfresh : ∀ n ∈ added, n ∉ processed st ++ st.queue := by
    intro n hn hold
    have h1 := inv.nonpos n hold
    have h2 := ((hmem n).mp hn).2.1
    omega
  refine ⟨?_, ?_, ?_, ?_, ?_⟩
  · rw [hall]
    exact List.nodup_append.mpr ⟨inv.nodup, hnd, fun n h1 h2 => hfresh n h2 h1⟩
  · intro n hn
    rw [hall] at hn
    rw [hdc]
    rcases List.mem_append.mp hn with h | h
    · have := inv.nonpos n h
      omega
    · have := ((hmem n).mp h).2.2
      omega
  · intro n hn
    rw [hall] at hn
    rcases List.mem_append.mp hn with h | h
    · exact inv.known n h
    · have h1 := ((hmem n).mp h).1
      rw [indexTasks_dependents] at h1
      obtain ⟨t, ht, htn, _⟩ := mem_dependentsOf h1
      exact mem_taskNames.mpr ⟨t, ht, htn⟩
  · intro n hn hzero
    rw [hall]
    rw [hdc] at hzero
    by_cases hc : (mapGet (indexTasks tasks).dependents [] name).count n = 0
    · rw [hc] at hzero
      exact List.mem_append_left _ (inv.seen n hn (by simpa using hzero))
    · refine List.mem_append_right _ ((hmem n).mpr ⟨?_, ?_, ?_⟩)
      · exact List.count_pos_iff.mp (Nat.pos_of_ne_zero hc)
      · have : 0 < (mapGet (indexTasks tasks).dependents [] name).count n :=
          Nat.pos_of_ne_zero hc
        omega
      · omega
  · intro t ht
    simp only [kahnStep, List.mem_append, List.mem_singleton] at ht
    rcases ht with h | h
    · exact inv.registered t h
    · rw [h]; exact (taskMap_read tasks hname).2

/-- Dequeuing `name` resolves as many dependencies as `name` occurs among them. -/
theorem countP_unprocessed_snoc (P : List String) (name : String) (hname : name ∉ P)
    (deps : List String) :
    deps.countP (fun d => decide (d ∉ P ++ [name])) + deps.count name
      = deps.countP (fun d => decide (d ∉ P)) := by
  induction deps with
  | nil => simp
  | cons d rest ih =>
    rw [List.countP_cons, List.countP_cons, List.count_cons, ← ih]
    by_cases hd : d = name
    · subst hd
      simp [hname]
      omega
    · by_cases hp : d ∈ P
      · simp [hp, hd]
      · simp [hp, hd]
        omega

/-- With distinct names a task is determined by its name. -/
theorem task_unique {tasks : List ShutdownTask} (hd : (taskNames tasks).Nodup)
    {a b : ShutdownTask} (ha : a ∈ tasks) (hb : b ∈ tasks) (h : a.Name = b.Name) : a = b :=
  List.inj_on_of_nodup_map hd ha hb h

/-- One iteration of the queue loop keeps the invariant for distinct names. -/
theorem kahnStep_invDistinct (tasks : List ShutdownTask) (hd : (taskNames tasks).Nodup)
    (st : KahnState) (name : String) (rest : List String) (hq : st.queue = name :: rest)
    (inv : KahnInv tasks st) (invD : KahnInvDistinct tasks st) :
    KahnInvDistinct tasks (kahnStep (indexTasks tasks) st name rest) := by
  have hname : name ∈ taskNames tasks := inv.known name (by simp [hq])
  have hproc := processed_kahnStep tasks st name rest hname
  have hval := (releaseDependents_spec (mapGet (indexTasks tasks).dependents [] name)
    st.depCount rest).1
  have hdc : ∀ n, mapGet (kahnStep (indexTasks tasks) st name rest).depCount 0 n
      = mapGet st.depCount 0 n
        - (((mapGet (indexTasks tasks).dependents [] name).count n : Nat) : Int) := hval
  have hfresh : name ∉ processed st := by
    have h1 := inv.nodup
    rw [hq] at h1
    exact fun h => (List.nodup_append.mp h1).2.2 h (by simp)
  obtain ⟨tk, htk, htkn⟩ := mem_taskNames.mp hname
  have hread : mapGet (indexTasks tasks).taskMap zeroTask name = tk := by
    have h := taskMap_read tasks hname
    exact task_unique hd h.2 htk (h.1.trans htkn.symm)
  have hready : ∀ d ∈ tk.DependsOn, d ∈ processed st := by
    have h1 := inv.nonpos name (by simp [hq])
    have h2 := invD.pending tk htk
    rw [htkn] at h2
    have h3 : tk.DependsOn.countP (fun d => decide (d ∉ processed st)) = 0 := by omega
    intro d hdm
    have := List.countP_eq_zero.mp h3 d hdm
    simpa using this
  refine ⟨fun t ht => ?_, fun p t s hsplit d hdm => ?_⟩
  · rw [hdc, invD.pending t ht, hproc, indexTasks_dependents, count_dependentsOf hd ht,
      ← countP_unprocessed_snoc (processed st) name hfresh t.DependsOn]
    push_cast
    ring
  · have hord : (kahnStep (indexTasks tasks) st name rest).ordered = st.ordered ++ [tk] := by
      simp [kahnStep, hread]
    rw [hord] at hsplit
    rcases List.eq_nil_or_concat s with hs | ⟨s', x, hs⟩
    · subst hs
      have h := List.append_inj' hsplit (by simp)
      have hp : p = st.ordered := h.1.symm
      have ht : t = tk := by simpa using h.2.symm
      subst hp ht
      exact hready d hdm
    · subst hs
      have h : st.ordered ++ [tk] = (p ++ t :: s') ++ [x] := by simpa using hsplit
      have h' := List.append_inj' h (by simp)
      exact invD.topo p t s' h'.1 d hdm

/-- The invariant holds when the queue loop is entered. -/
theorem initial_inv (tasks : List ShutdownTask) (mapOrder : List Nat) :
    KahnInv tasks
      { depCount := (indexTasks tasks).depCount
        queue := initialQueue (indexTasks tasks).depCount
          (pickOrder mapOrder (indexTasks tasks).depCount.keys)
        ordered := [] } := by
  have hperm := pickOrder_perm mapOrder (indexTasks tasks).depCount.keys
  refine ⟨?_, ?_, ?_, ?_, ?_⟩
  · simp only [processed, List.map_nil, List.nil_append, initialQueue]
    exact (hperm.nodup_iff.mpr (AList.keys_nodup _)).filter _
  · intro n hn
    simp only [processed, List.map_nil, List.nil_append, initialQueue, List.mem_filter,
      decide_eq_true_eq] at hn
    exact le_of_eq hn.2
  · intro n hn
    simp only [processed, List.map_nil, List.nil_append, initialQueue, List.mem_filter] at hn
    exact (indexTasks_depCount_keys tasks n).mp (hperm.subset hn.1)
  · intro n hn hz
    simp only [processed, List.map_nil, List.nil_append, initialQueue, List.mem_filter,
      decide_eq_true_eq]
    exact ⟨hperm.symm.subset ((indexTasks_depCount_keys tasks n).mpr hn), hz⟩
  · intro t ht
    simp at ht

/-- The invariant for distinct names holds when the queue loop is entered. -/
theorem initial_invDistinct (tasks : List ShutdownTask) (hd : (taskNames tasks).Nodup)
    (mapOrder : List Nat) :
    KahnInvDistinct tasks
      { depCount := (indexTasks tasks).depCount
        queue := initialQueue (indexTasks tasks).depCount
          (pickOrder mapOrder (indexTasks tasks).depCount.keys)
        ordered := [] } := by
  refine ⟨fun t ht => ?_, fun p t s hsplit => ?_⟩
  · simp only [processed, List.map_nil, mapGet, (indexTasks_lookup_distinct hd ht).2,
      Option.getD_some]
    simp
  · simp at hsplit

/-- A property kept by every iteration holds when the queue loop stops. -/
theorem drainQueue_preserves (g : DepGraph) (P : KahnState → Prop)
    (hstep : ∀ st name rest, st.queue = name :: rest → P st → P (kahnStep g st name rest)) :
    ∀ (fuel : Nat) (st : KahnState), P st → P (drainQueue g fuel st) := by
  intro fuel
  induction fuel with
  | zero => intro st h; exact h
  | succ fuel ih =>
    intro st h
    cases hq : st.queue with
    | nil => simpa [drainQueue, hq] using h
    | cons name rest =>
      simp only [drainQueue, hq]
      exact ih _ (hstep st name rest hq h)

/-- Dequeued and queued names together are at most as many as the tasks. -/
theorem inv_length_le (tasks : List ShutdownTask) (st : KahnState) (inv : KahnInv tasks st) :
    (processed st).length + st.queue.length ≤ tasks.length := by
  have h := (inv.nodup.subperm (fun n hn => inv.known n hn)).length_le
  simpa [taskNames] using h

/-- With enough fuel the queue loop stops on an empty queue. -/
theorem drainQueue_queue_empty (tasks : List ShutdownTask) :
    ∀ (fuel : Nat) (st : KahnState), KahnInv tasks st →
      tasks.length ≤ fuel + (processed st).length →
      (drainQueue (indexTasks tasks) fuel st).queue = [] := by
  intro fuel
  induction fuel with
  | zero =>
    intro st inv hlen
    have h := inv_length_le tasks st inv
    simp only [drainQueue]
    exact List.length_eq_zero.mp (by omega)
  | succ fuel ih =>
    intro st inv hlen
    cases hq : st.queue with
    | nil => simp [drainQueue, hq]
    | cons name rest =>
      simp only [drainQueue, hq]
      refine ih _ (kahnStep_inv tasks st name rest hq inv) ?_
      rw [processed_kahnStep tasks st name rest (inv.known name (by simp [hq]))]
      simp
      omega

/-- The invariant holds at the end of `buildExecutionOrder`. -/
theorem kahnFinal_inv (tasks : List ShutdownTask) (mapOrder : List Nat) :
    KahnInv tasks (kahnFinal tasks mapOrder) :=
  drainQueue_preserves _ (KahnInv tasks) (fun st name rest hq h => kahnStep_inv tasks st name rest hq h)
    _ _ (initial_inv tasks mapOrder)

/-- The invariant for distinct names holds at the end of `buildExecutionOrder`. -/
theorem kahnFinal_invDistinct (tasks : List ShutdownTask) (hd : (taskNames tasks).Nodup)
    (mapOrder : List Nat) : KahnInvDistinct tasks (kahnFinal tasks mapOrder) :=
  (drainQueue_preserves _ (fun st => KahnInv tasks st ∧ KahnInvDistinct tasks st)
    (fun st name rest hq h =>
      ⟨kahnStep_inv tasks st name rest hq h.1, kahnStep_invDistinct tasks hd st name rest hq h.1 h.2⟩)
    _ _ ⟨initial_inv tasks mapOrder, initial_invDistinct tasks hd mapOrder⟩).2

/-- The queue loop of `buildExecutionOrder` ends within `len(so.tasks)`
iterations: the final queue is empty, for every task list. -/
theorem buildExecutionOrder_queue_empty (tasks : List ShutdownTask) (mapOrder : List Nat) :
    (kahnFinal tasks mapOrder).queue = [] :=
  drainQueue_queue_empty tasks _ _ (initial_inv tasks mapOrder) (by simp [processed])

/-! ## The execution order of well-formed and of cyclic task lists -/

/-- Registration appends to the task list and touches nothing else. -/
theorem registerAll_tasks (tasks : List ShutdownTask) :
    ∀ so : ShutdownOrchestrator, (registerAll so tasks).tasks = so.tasks ++ tasks ∧
      (registerAll so tasks).results = so.results ∧
      (registerAll so tasks).globalTimeout = so.globalTimeout := by
  induction tasks with
  | nil => intro so; simp [registerAll]
  | cons t rest ih =>
    intro so
    obtain ⟨h1, h2, h3⟩ := ih (RegisterTask so t)
    have hunf : registerAll so (t :: rest) = registerAll (RegisterTask so t) rest := rfl
    rw [hunf, h1, h2, h3]
    simp [RegisterTask]

/-- Without cycles, "is a dependency of" is well founded on the task names. -/
theorem dependencies_wellFounded (tasks : List ShutdownTask) (hac : Acyclic tasks) :
    WellFounded (fun a b : { n // n ∈ taskNames tasks } => DependsEdge tasks b.1 a.1) := by
  have hirr : IsIrrefl { n // n ∈ taskNames tasks }
      (Relation.TransGen fun a b : { n // n ∈ taskNames tasks } => DependsEdge tasks b.1 a.1) := by
    refine ⟨fun a h => hac a.1 ?_⟩
    have h1 : Relation.TransGen (Function.swap (DependsEdge tasks)) a.1 a.1 :=
      Relation.TransGen.lift Subtype.val (fun x y hxy => hxy) h
    exact Relation.transGen_swap.mp h1
  have hwf := Finite.wellFounded_of_trans_of_irrefl
    (Relation.TransGen fun a b : { n // n ∈ taskNames tasks } => DependsEdge tasks b.1 a.1)
  have hsub : Subrelation (fun a b : { n // n ∈ taskNames tasks } => DependsEdge tasks b.1 a.1)
      (Relation.TransGen fun a b : { n // n ∈ taskNames tasks } => DependsEdge tasks b.1 a.1) :=
    fun h => Relation.TransGen.single h
  exact Subrelation.wf hsub hwf

/-- Every task of a well-formed list is dequeued. -/
theorem kahnFinal_complete (tasks : List ShutdownTask) (mapOrder : List Nat)
    (hd : (taskNames tasks).Nodup) (hreg : DepsRegistered tasks) (hac : Acyclic tasks) :
    ∀ n ∈ taskNames tasks, n ∈ processed (kahnFinal tasks mapOrder) := by
  have inv := kahnFinal_inv tasks mapOrder
  have invD := kahnFinal_invDistinct tasks hd mapOrder
  have hq := buildExecutionOrder_queue_empty tasks mapOrder
  have key : ∀ a : { n // n ∈ taskNames tasks }, a.1 ∈ processed (kahnFinal tasks mapOrder) := by
    intro a
    induction a using (dependencies_wellFounded tasks hac).induction with
    | _ a ih =>
      obtain ⟨t, ht, htn⟩ := mem_taskNames.mp a.2
      have hdeps : ∀ d ∈ t.DependsOn, d ∈ processed (kahnFinal tasks mapOrder) := fun d hdm =>
        ih ⟨d, hreg t ht d hdm⟩ ⟨t, ht, htn, hdm⟩
      have hcount : t.DependsOn.countP
          (fun d => decide (d ∉ processed (kahnFinal tasks mapOrder))) = 0 :=
        List.countP_eq_zero.mpr (fun d hdm => by simpa using hdeps d hdm)
      have hz : mapGet (kahnFinal tasks mapOrder).depCount 0 a.1 = 0 := by
        rw [← htn, invD.pending t ht, hcount]; rfl
      have := inv.seen a.1 a.2 hz
      rwa [hq, List.append_nil] at this
  exact fun n hn => key ⟨n, hn⟩

/-- The execution order of a well-formed list is a permutation of the tasks. -/
theorem kahnFinal_perm (tasks : List ShutdownTask) (mapOrder : List Nat)
    (hd : (taskNames tasks).Nodup) (hreg : DepsRegistered tasks) (hac : Acyclic tasks) :
    (kahnFinal tasks mapOrder).ordered.Perm tasks := by
  have inv := kahnFinal_inv tasks mapOrder
  have hq := buildExecutionOrder_queue_empty tasks mapOrder
  have hnd : (processed (kahnFinal tasks mapOrder)).Nodup := by
    have := inv.nodup
    rwa [hq, List.append_nil] at this
  refine (List.perm_ext_iff_of_nodup (List.Nodup.of_map _ hnd) (List.Nodup.of_map _ hd)).mpr ?_
  intro t
  refine ⟨inv.registered t, fun ht => ?_⟩
  have h := kahnFinal_complete tasks mapOrder hd hreg hac t.Name (mem_taskNames.mpr ⟨t, ht, rfl⟩)
  obtain ⟨t', ht', hn⟩ := List.mem_map.mp h
  have : t' = t := task_unique hd (inv.registered t' ht') ht hn
  exact this ▸ ht'

/-- With distinct names, whatever a dequeued task depends on, directly or not,
was dequeued before it. -/
theorem kahnFinal_before (tasks : List ShutdownTask) (mapOrder : List Nat)
    (hd : (taskNames tasks).Nodup) {a b : String}
    (hab : Relation.TransGen (DependsEdge tasks) a b) :
    ∀ p t s, (kahnFinal tasks mapOrder).ordered = p ++ t :: s → t.Name = a →
      b ∈ p.map (fun t => t.Name) := by
  have inv := kahnFinal_inv tasks mapOrder
  have invD := kahnFinal_invDistinct tasks hd mapOrder
  have base : ∀ {a b : String}, DependsEdge tasks a b → ∀ p t s,
      (kahnFinal tasks mapOrder).ordered = p ++ t :: s → t.Name = a →
      b ∈ p.map (fun t => t.Name) := by
    rintro a b ⟨t', ht', hn', hb⟩ p t s hsplit hta
    have htm : t ∈ tasks := inv.registered t (by rw [hsplit]; simp)
    have : t = t' := task_unique hd htm ht' (hta.trans hn'.symm)
    subst this
    exact invD.topo p t s hsplit b hb
  induction hab with
  | single h => exact base h
  | tail _ hbc ih =>
    intro p t s hsplit hta
    obtain ⟨tb, htb, hbn⟩ := List.mem_map.mp (ih p t s hsplit hta)
    obtain ⟨p1, p2, hp⟩ := List.append_of_mem htb
    have hsplit2 : (kahnFinal tasks mapOrder).ordered = p1 ++ tb :: (p2 ++ t :: s) := by
      rw [hsplit, hp]; simp
    have := base hbc p1 tb (p2 ++ t :: s) hsplit2 hbn
    rw [hp]
    simp only [List.map_append, List.mem_append]
    exact Or.inl this

/-- With distinct names, a task on a dependency cycle is never dequeued. -/
theorem kahnFinal_no_cycle (tasks : List ShutdownTask) (mapOrder : List Nat)
    (hd : (taskNames tasks).Nodup) (n : String) (hc : OnCycle tasks n) :
    n ∉ processed (kahnFinal tasks mapOrder) := by
  intro hn
  have inv := kahnFinal_inv tasks mapOrder
  obtain ⟨t, ht, htn⟩ := List.mem_map.mp hn
  obtain ⟨p, s, hsplit⟩ := List.append_of_mem ht
  have h1 := kahnFinal_before tasks mapOrder hd hc p t s hsplit htn
  have hnd : (processed (kahnFinal tasks mapOrder)).Nodup :=
    (List.nodup_append.mp inv.nodup).1
  rw [processed, hsplit, List.map_append, List.map_cons, htn] at hnd
  exact (List.nodup_append.mp hnd).2.2 h1 (by simp)

/-- One store keeps the shape of the values of `so.results` and puts a slice
with at least one result of the run in front. -/
theorem traced_storeAppend {initial done : List TaskResult} {cur : List TaskResult}
    {older : List (List TaskResult)} (h : Traced initial done (cur :: older)) (miss : Nat)
    (r : TaskResult) :
    ∃ kept, storeAppend (cur :: older) miss r = (initial ++ kept) :: cur :: older ∧ kept ≠ [] ∧
      kept.Sublist (done ++ [r]) ∧
      Traced initial (done ++ [r]) (storeAppend (cur :: older) miss r) := by
  have hlt : min miss ((cur :: older).length - 1) < (cur :: older).length := by
    simp only [List.length_cons]
    omega
  have hmem : (cur :: older).getD (min miss ((cur :: older).length - 1)) [] ∈ cur :: older := by
    rw [List.getD_eq_getElem _ _ hlt]
    exact List.getElem_mem _
  obtain ⟨k, hk, hsub⟩ := h _ hmem
  have hnew : (cur :: older).getD (min miss ((cur :: older).length - 1)) [] ++ [r]
      = initial ++ (k ++ [r]) := by
    rw [hk, List.append_assoc]
  have hsub' : (k ++ [r]).Sublist (done ++ [r]) := hsub.append (List.Sublist.refl _)
  have heq : storeAppend (cur :: older) miss r = (initial ++ (k ++ [r])) :: cur :: older := by
    unfold storeAppend
    rw [hnew]
  refine ⟨k ++ [r], heq, by simp, hsub', ?_⟩
  rw [heq]
  intro h' hh'
  rcases List.mem_cons.mp hh' with hh' | hh'
  · exact ⟨k ++ [r], hh', hsub'⟩
  · obtain ⟨k', hk', hs'⟩ := h h' hh'
    exact ⟨k', hk', hs'.trans (List.sublist_append_left _ _)⟩

/-- After the stores of a run `so.results` is the slice found at the entry
followed by some of the stored results, at least one if there was a store. -/
theorem storeAppends_traced (initial : List TaskResult) (stored : List TaskResult) :
    ∀ (stale : List Nat) (done cur : List TaskResult) (older : List (List TaskResult)),
      Traced initial done (cur :: older) →
      ∃ kept rest, storeAppends stale (cur :: older) stored = (initial ++ kept) :: rest ∧
        kept.Sublist (done ++ stored) ∧ (stored ≠ [] → kept ≠ []) := by
  induction stored with
  | nil =>
    intro stale done cur older h
    obtain ⟨k, hk, hs⟩ := h cur (by simp)
    exact ⟨k, older, by simp [storeAppends, hk], by simpa using hs, fun hne => absurd rfl hne⟩
  | cons r rs ih =>
    intro stale done cur older h
    obtain ⟨k1, heq, hne1, hs1, htr⟩ := traced_storeAppend h (stale.headD 0) r
    simp only [storeAppends]
    rw [heq] at htr ⊢
    obtain ⟨k2, rest, h2, hs2, hne2⟩ := ih stale.tail (done ++ [r]) _ _ htr
    have hdone : done ++ [r] ++ rs = done ++ r :: rs := by simp
    rw [hdone] at hs2
    refine ⟨k2, rest, h2, hs2, fun _ => ?_⟩
    cases rs with
    | nil =>
      simp only [storeAppends, List.cons.injEq] at h2
      have := List.append_cancel_left h2.1
      rw [← this]; exact hne1
    | cons r' rs' => exact hne2 (by simp)

/-- When no goroutine misses a store, every stored result is appended. -/
theorem storeAppends_serial (stored : List TaskResult) :
    ∀ (stale : List Nat) (cur : List TaskResult) (older : List (List TaskResult)),
      (∀ miss ∈ stale, miss = 0) →
      ∃ rest, storeAppends stale (cur :: older) stored = (cur ++ stored) :: rest := by
  induction stored with
  | nil => intro stale cur older _; exact ⟨older, by simp [storeAppends]⟩
  | cons r rs ih =>
    intro stale cur older hs
    have h0 : stale.headD 0 = 0 := by
      cases stale with
      | nil => rfl
      | cons a t => exact hs a (by simp)
    have ht : ∀ miss ∈ stale.tail, miss = 0 := fun m hm => hs m (List.mem_of_mem_tail hm)
    obtain ⟨rest, hrest⟩ := ih stale.tail (cur ++ [r]) (cur :: older) ht
    refine ⟨rest, ?_⟩
    simp only [storeAppends, storeAppend, h0, Nat.zero_min, List.getD_cons_zero]
    rw [hrest]
    simp

/-- The value of `so.results` after `wg.Wait()`: the slice found at the entry
followed by some of the results of the run in the order of their stores, at
least one of them if there is one, and all of them when no goroutine misses a
store. -/
theorem racedResults_spec (initial : List TaskResult) (stale : List Nat)
    (stored : List TaskResult) :
    ∃ kept, racedResults initial stale stored = initial ++ kept ∧ kept.Sublist stored ∧
      (stored ≠ [] → kept ≠ []) ∧ ((∀ miss ∈ stale, miss = 0) → kept = stored) := by
  have htr : Traced initial [] [initial] := by
    intro h hh
    have : h = initial := by simpa using hh
    exact ⟨[], by simp [this], List.Sublist.refl _⟩
  obtain ⟨kept, rest, heq, hsub, hne⟩ := storeAppends_traced initial stored stale [] initial [] htr
  refine ⟨kept, by simp [racedResults, heq], by simpa using hsub, hne, fun hs => ?_⟩
  obtain ⟨rest', heq'⟩ := storeAppends_serial stored stale initial [] hs
  rw [heq'] at heq
  simp only [List.cons.injEq] at heq
  exact (List.append_cancel_left heq.1).symm

/-- The slice returned by `Shutdown`: the earlier results followed by results
of tasks of the execution order, each task at most once; at least one of them
if the execution order is not empty, and all of them when no goroutine misses
a store. -/
theorem shutdown_returned (so : ShutdownOrchestrator) (rt : Runtime) :
    ∃ fresh, (Shutdown so rt).returned = so.results ++ fresh ∧
      fresh.Subperm ((buildExecutionOrder so rt.mapOrder).map
        (fun t => executeTask t (rt.preferDone t.Name))) ∧
      (buildExecutionOrder so rt.mapOrder ≠ [] → fresh ≠ []) ∧
      (SerialAppends rt → fresh.Perm ((buildExecutionOrder so rt.mapOrder).map
        (fun t => executeTask t (rt.preferDone t.Name)))) := by
  have hperm : (pickOrder rt.appendOrder
      (((buildExecutionOrder so rt.mapOrder).map (launch rt)).map (fun r => r.result))).Perm
      ((buildExecutionOrder so rt.mapOrder).map
        (fun t => executeTask t (rt.preferDone t.Name))) := by
    refine (pickOrder_perm _ _).trans ?_
    simp [launch, Function.comp_def]
  obtain ⟨kept, heq, hsub, hne, hser⟩ := racedResults_spec so.results rt.stale
    (pickOrder rt.appendOrder
      (((buildExecutionOrder so rt.mapOrder).map (launch rt)).map (fun r => r.result)))
  refine ⟨kept, heq, hsub.subperm.trans hperm.subperm, fun hord => hne ?_, fun hs => ?_⟩
  · intro hnil
    have := hperm.length_eq
    rw [hnil] at this
    simp at this
    exact hord (List.length_eq_zero.mp this.symm)
  · rw [hser hs]
    exact hperm

/-- What is registered on a fresh orchestrator is its task list, and it has
no results. -/
theorem registerAll_fresh (tasks : List ShutdownTask) (globalTimeout : Int) :
    (registerAll (NewShutdownOrchestrator globalTimeout) tasks).tasks = tasks ∧
    (registerAll (NewShutdownOrchestrator globalTimeout) tasks).results = [] ∧
    (registerAll (NewShutdownOrchestrator globalTimeout) tasks).globalTimeout
      = globalTimeout := by
  have h := registerAll_tasks tasks (NewShutdownOrchestrator globalTimeout)
  exact ⟨by rw [h.1]; rfl, by rw [h.2.1]; rfl, by rw [h.2.2]; rfl⟩

/-- On a fresh orchestrator `Shutdown` returns results of tasks of the
execution order, each task at most once. -/
theorem shutdown_fresh_returned (tasks : List ShutdownTask) (globalTimeout : Int)
    (rt : Runtime) :
    ((Shutdown (registerAll (NewShutdownOrchestrator globalTimeout) tasks) rt).returned).Subperm
      ((kahnFinal tasks rt.mapOrder).ordered.map
        (fun t => executeTask t (rt.preferDone t.Name))) := by
  obtain ⟨fresh, h1, h2, _, _⟩ :=
    shutdown_returned (registerAll (NewShutdownOrchestrator globalTimeout) tasks) rt
  have h3 := registerAll_fresh tasks globalTimeout
  rw [buildExecutionOrder, h3.1] at h2
  rw [h1, h3.2.1]
  exact h2

/-- On a fresh orchestrator, when no goroutine misses a store, `Shutdown`
returns a permutation of the results of the tasks of the execution order. -/
theorem shutdown_fresh_serial (tasks : List ShutdownTask) (globalTimeout : Int)
    (rt : Runtime) (hs : SerialAppends rt) :
    ((Shutdown (registerAll (NewShutdownOrchestrator globalTimeout) tasks) rt).returned).Perm
      ((kahnFinal tasks rt.mapOrder).ordered.map
        (fun t => executeTask t (rt.preferDone t.Name))) := by
  obtain ⟨fresh, h1, _, _, h2⟩ :=
    shutdown_returned (registerAll (NewShutdownOrchestrator globalTimeout) tasks) rt
  have h3 := registerAll_fresh tasks globalTimeout
  have h4 := h2 hs
  rw [buildExecutionOrder, h3.1] at h4
  rw [h1, h3.2.1]
  exact h4

/-- The results computed by the goroutines of `Shutdown` on a fresh
orchestrator are those of the tasks of the execution order. -/
theorem shutdown_fresh_runs (tasks : List ShutdownTask) (globalTimeout : Int) (rt : Runtime) :
    (Shutdown (registerAll (NewShutdownOrchestrator globalTimeout) tasks) rt).runs.map
        (fun r => r.result)
      = (kahnFinal tasks rt.mapOrder).ordered.map
        (fun t => executeTask t (rt.preferDone t.Name)) := by
  have h3 := registerAll_fresh tasks globalTimeout
  simp only [Shutdown, buildExecutionOrder, h3.1, List.map_map]
  rfl

/-- Both branches of `executeTask` report the name of the task. -/
theorem executeTask_name (t : ShutdownTask) (b : Bool) : (executeTask t b).Name = t.Name := by
  unfold executeTask
  cases selectCase t.Handler t.Timeout b <;> rfl


/-! ## The sweep of `CloseAll` -/

/-- The visit of a key leaves the entry and the error of every other name. -/
theorem closeAllVisit_other {W : Type} (st : SweepState W) {m n : String} (h : n ≠ m) :
    (closeAllVisit st m).resources.lookup n = st.resources.lookup n ∧
    (closeAllVisit st m).errors.lookup n = st.errors.lookup n := by
  unfold closeAllVisit
  cases hl : st.resources.lookup m with
  | none => simp
  | some res =>
    simp only
    by_cases ha : res.Active = true
    · simp only [ha, if_true]
      cases hc : res.Cleanup with
      | none => simp
      | some c =>
        simp only
        rcases hcw : c st.world with ⟨r, w'⟩
        cases r with
        | none => simp [markInactive, AList.lookup_insert_ne h]
        | some e => simp [AList.lookup_insert_ne h]
    · simp [ha]

/-- A sweep leaves the entry and the error of a name it does not visit. -/
theorem closeAllSweep_other {W : Type} (names : List String) :
    ∀ (st : SweepState W) {n : String}, n ∉ names →
      (closeAllSweep st names).resources.lookup n = st.resources.lookup n ∧
      (closeAllSweep st names).errors.lookup n = st.errors.lookup n := by
  induction names with
  | nil => intro st n _; simp [closeAllSweep]
  | cons m rest ih =>
    intro st n hn
    have hm : n ≠ m := fun h => hn (by simp [h])
    have hr : n ∉ rest := fun h => hn (by simp [h])
    have h1 := closeAllVisit_other st hm
    have h2 := ih (closeAllVisit st m) hr
    simp only [closeAllSweep, List.foldl_cons] at h2 ⊢
    exact ⟨h2.1.trans h1.1, h2.2.trans h1.2⟩

/-- A sweep over two lists in a row. -/
theorem closeAllSweep_append {W : Type} (st : SweepState W) (xs ys : List String) :
    closeAllSweep st (xs ++ ys) = closeAllSweep (closeAllSweep st xs) ys := by
  simp [closeAllSweep, List.foldl_append]

/-- A sweep, unfolded at its first key. -/
theorem closeAllSweep_cons {W : Type} (st : SweepState W) (x : String) (ys : List String) :
    closeAllSweep st (x :: ys) = closeAllSweep (closeAllVisit st x) ys := by
  simp [closeAllSweep]

/-- The visit of a key, given the entry stored under it. -/
theorem closeAllVisit_self {W : Type} (st : SweepState W) (n : String) (res : Resource W)
    (hl : st.resources.lookup n = some res) :
    match res.Active, res.Cleanup with
    | true, some cleanup =>
      (closeAllVisit st n).world = (cleanup st.world).2 ∧
      (closeAllVisit st n).errors.lookup n =
        (match (cleanup st.world).1 with | some e => some e | none => st.errors.lookup n)
    | _, _ =>
      (closeAllVisit st n).world = st.world ∧
      (closeAllVisit st n).errors.lookup n = st.errors.lookup n := by
  unfold closeAllVisit
  simp only [hl]
  cases ha : res.Active with
  | false => simp
  | true =>
    cases hc : res.Cleanup with
    | none => simp
    | some c =>
      simp only [if_true]
      rcases hcw : c st.world with ⟨r, w'⟩
      cases r with
      | none => simp
      | some e => simp [AList.lookup_insert]

/-! ## Acyclic task lists -/

/-- A numbering of the names that decreases along every dependency edge rules
out cycles. -/
theorem acyclic_of_rank (tasks : List ShutdownTask) (rank : String → Nat)
    (h : ∀ t ∈ tasks, ∀ d ∈ t.DependsOn, rank d < rank t.Name) : Acyclic tasks := by
  have hlt : ∀ {a b : String}, Relation.TransGen (DependsEdge tasks) a b → rank b < rank a := by
    intro a b hab
    induction hab with
    | single hab =>
      obtain ⟨t, ht, hn, hb⟩ := hab
      exact hn ▸ h t ht _ hb
    | tail _ hbc ih =>
      obtain ⟨t, ht, hn, hb⟩ := hbc
      exact lt_trans (hn ▸ h t ht _ hb) ih
  exact fun n hc => lt_irrefl _ (hlt hc)

/-! ## Claims about the shutdown orchestrator -/

/-- Claim C1, counterexample: two tasks that depend on each other are both
registered on a fresh orchestrator, and `Shutdown` returns no result at all,
so the number of results differs from the number of registered tasks. -/
theorem shutdown_cycle_returns_nothing :
    (Shutdown (registerAll (NewShutdownOrchestrator (ms 100)) cyclicTasks)
        promptRuntime).returned = [] ∧
    ((Shutdown (registerAll (NewShutdownOrchestrator (ms 100)) cyclicTasks)
        promptRuntime).returned).length ≠ cyclicTasks.length := by
  decide

/-- Claim C1, amended: for every list of tasks with pairwise distinct names
whose `DependsOn` entries all name registered tasks and whose dependency
relation has no cycle, registered on a freshly constructed orchestrator, and
for every choice of the runtime, `Shutdown` computes exactly one `TaskResult`
for each registered task, its `executeTask` result.  The returned collection
holds some of these results, at most one named `T` for each registered task
`T`.  Whenever no goroutine misses a store of another, that is to say every
append to `so.results` works on the slice left by the appends before it, the
returned collection holds them all: exactly one result named `T` for each
registered task `T`, as many results as registered tasks. -/
theorem shutdown_one_result_per_task (tasks : List ShutdownTask) (globalTimeout : Int)
    (rt : Runtime) (hd : (taskNames tasks).Nodup) (hreg : DepsRegistered tasks)
    (hac : Acyclic tasks) :
    ((Shutdown (registerAll (NewShutdownOrchestrator globalTimeout) tasks) rt).runs.map
        (fun r => r.result)).Perm
      (tasks.map (fun t => executeTask t (rt.preferDone t.Name))) ∧
    ((Shutdown (registerAll (NewShutdownOrchestrator globalTimeout) tasks) rt).returned).Subperm
      (tasks.map (fun t => executeTask t (rt.preferDone t.Name))) ∧
    (∀ t ∈ tasks,
      ((Shutdown (registerAll (NewShutdownOrchestrator globalTimeout) tasks) rt).returned).countP
        (fun r => decide (r.Name = t.Name)) ≤ 1) ∧
    (SerialAppends rt →
      ((Shutdown (registerAll (NewShutdownOrchestrator globalTimeout) tasks) rt).returned).Perm
          (tasks.map (fun t => executeTask t (rt.preferDone t.Name))) ∧
      ((Shutdown (registerAll (NewShutdownOrchestrator globalTimeout) tasks) rt).returned).length
          = tasks.length ∧
      ∀ t ∈ tasks,
        ((Shutdown (registerAll (NewShutdownOrchestrator globalTimeout) tasks)
          rt).returned).countP (fun r => decide (r.Name = t.Name)) = 1) := by
  have hord : ((kahnFinal tasks rt.mapOrder).ordered.map
      (fun t => executeTask t (rt.preferDone t.Name))).Perm
      (tasks.map (fun t => executeTask t (rt.preferDone t.Name))) :=
    (kahnFinal_perm tasks rt.mapOrder hd hreg hac).map _
  have hone : ∀ t ∈ tasks,
      (tasks.map (fun t => executeTask t (rt.preferDone t.Name))).countP
        (fun r => decide (r.Name = t.Name)) = 1 := by
    intro t ht
    rw [List.countP_map]
    have hcongr : tasks.countP
        ((fun r : TaskResult => decide (r.Name = t.Name)) ∘
          fun t => executeTask t (rt.preferDone t.Name))
        = tasks.count t := by
      refine List.countP_congr (fun t' ht' => ?_)
      simp only [Function.comp, executeTask_name, decide_eq_true_eq, beq_iff_eq]
      exact ⟨fun h => task_unique hd ht' ht h, fun h => by rw [h]⟩
    rw [hcongr]
    exact List.count_eq_one_of_mem (List.Nodup.of_map _ hd) ht
  have hsub := (shutdown_fresh_returned tasks globalTimeout rt).trans hord.subperm
  refine ⟨?_, hsub, fun t ht => ?_, fun hs => ?_⟩
  · rw [shutdown_fresh_runs]
    exact hord
  · exact (hsub.countP_le _).trans (le_of_eq (hone t ht))
  · have hperm := (shutdown_fresh_serial tasks globalTimeout rt hs).trans hord
    refine ⟨hperm, by simpa using hperm.length_eq, fun t ht => ?_⟩
    rw [hperm.countP_eq]
    exact hone t ht

/-- Claim C1, witness: the chain `drain`, `closeDB` meets the hypotheses; with
appends that do not race both tasks have their result in the returned
collection. -/
theorem shutdown_one_result_per_task_witness :
    (taskNames [drainTask, closeDBTask]).Nodup ∧
    DepsRegistered [drainTask, closeDBTask] ∧
    Acyclic [drainTask, closeDBTask] ∧
    SerialAppends promptRuntime ∧
    ((Shutdown (registerAll (NewShutdownOrchestrator (ms 100)) [drainTask, closeDBTask])
        promptRuntime).returned).length = 2 := by
  have hd : (taskNames [drainTask, closeDBTask]).Nodup := by decide
  have hreg : DepsRegistered [drainTask, closeDBTask] := by
    unfold DepsRegistered; decide
  have hac : Acyclic [drainTask, closeDBTask] := by
    refine acyclic_of_rank _ (fun n => if n = "closeDB" then 1 else 0) ?_
    decide
  have hs : SerialAppends promptRuntime := by
    unfold SerialAppends; decide
  exact ⟨hd, hreg, hac, hs,
    ((shutdown_one_result_per_task [drainTask, closeDBTask] (ms 100) promptRuntime
      hd hreg hac).2.2.2 hs).2.1⟩

/-- Claim C2, counterexample: with `A` depending on `B` and `B` on `A` next to
an independent task, `Shutdown` returns the result of the independent task
only; the two cyclic tasks have no result, hence none of kind `GraphError`. -/
theorem shutdown_cycle_has_no_graph_error :
    (Shutdown
      (registerAll (NewShutdownOrchestrator (ms 100))
        [ drainTask,
          { Name := "A", Handler := { elapsed := some (ms 5), err := none },
            DependsOn := ["B"], Timeout := ms 1000 },
          { Name := "B", Handler := { elapsed := some (ms 5), err := none },
            DependsOn := ["A"], Timeout := ms 1000 } ])
      promptRuntime).returned
      = [ { Name := "drain", Success := true, Duration := ms 200, Error := none } ] := by
  decide

/-- Claim C2, amended: for every task list with pairwise distinct names
registered on a fresh orchestrator and every choice of the runtime, `Shutdown`
returns no `TaskResult` for a task that lies on a dependency cycle: the cyclic
tasks are omitted from the result set.  Every result that is returned is the
`executeTask` result of a registered task, so its error, if any, is the
handler's error or the task timeout. -/
theorem shutdown_omits_cyclic_tasks (tasks : List ShutdownTask) (globalTimeout : Int)
    (rt : Runtime) (hd : (taskNames tasks).Nodup) (n : String) (hc : OnCycle tasks n) :
    (∀ r ∈ (Shutdown (registerAll (NewShutdownOrchestrator globalTimeout) tasks) rt).returned,
      r.Name ≠ n) ∧
    (∀ r ∈ (Shutdown (registerAll (NewShutdownOrchestrator globalTimeout) tasks) rt).returned,
      ∃ t ∈ tasks, r = executeTask t (rt.preferDone t.Name)) := by
  have hperm := shutdown_fresh_returned tasks globalTimeout rt
  have inv := kahnFinal_inv tasks rt.mapOrder
  have hsrc : ∀ r ∈ (Shutdown (registerAll (NewShutdownOrchestrator globalTimeout) tasks)
      rt).returned, ∃ t ∈ (kahnFinal tasks rt.mapOrder).ordered,
        r = executeTask t (rt.preferDone t.Name) := by
    intro r hr
    obtain ⟨t, ht, he⟩ := List.mem_map.mp (hperm.subset hr)
    exact ⟨t, ht, he.symm⟩
  refine ⟨fun r hr hn => ?_, fun r hr => ?_⟩
  · obtain ⟨t, ht, he⟩ := hsrc r hr
    refine kahnFinal_no_cycle tasks rt.mapOrder hd n hc (List.mem_map.mpr ⟨t, ht, ?_⟩)
    rw [← hn, he, executeTask_name]
  · obtain ⟨t, ht, he⟩ := hsrc r hr
    exact ⟨t, inv.registered t ht, he⟩

/-- Claim C2, witness: `closeDB` lies on the cycle of `cyclicTasks` and no
result carries its name. -/
theorem shutdown_omits_cyclic_tasks_witness :
    (taskNames cyclicTasks).Nodup ∧
    OnCycle cyclicTasks "closeDB" ∧
    ∀ r ∈ (Shutdown (registerAll (NewShutdownOrchestrator (ms 100)) cyclicTasks)
        promptRuntime).returned, r.Name ≠ "closeDB" := by
  have hd : (taskNames cyclicTasks).Nodup := by decide
  have h1 : DependsEdge cyclicTasks "closeDB" "flushCache" := by
    unfold DependsEdge; decide
  have h2 : DependsEdge cyclicTasks "flushCache" "closeDB" := by
    unfold DependsEdge; decide
  have hc : OnCycle cyclicTasks "closeDB" :=
    Relation.TransGen.tail (Relation.TransGen.single h1) h2
  exact ⟨hd, hc, (shutdown_omits_cyclic_tasks cyclicTasks (ms 100) promptRuntime hd "closeDB" hc).1⟩

/-- Claim C3, the code at the failing input: `closeDB` depends on `drain`, and
`Shutdown` launches both goroutines without waiting.  The handler of `closeDB`
is started at instant 0, while `drain` has its result only at 200ms. -/
theorem shutdown_starts_dependent_early :
    (Shutdown chainOrchestrator promptRuntime).runs.map
        (fun r => (r.task.Name, r.task.DependsOn, r.started, r.finished))
      = [ ("drain", [], 0, (ms 200 : Int)), ("closeDB", ["drain"], 0, (ms 200 : Int)) ] := by
  decide

/-- Claim C4, the code at the failing input: with a global timeout of 100ms
and a run entered at instant 0, `shutdownStart` is read after `wg.Wait()`, at
200ms, so the deadline is 300ms and not 100ms; no warning is printed, and both
tasks, `closeDB` included, report the outcome of their handler. -/
theorem shutdown_deadline_after_wait :
    (Shutdown chainOrchestrator promptRuntime).so.shutdownStart = ms 200 ∧
    (Shutdown chainOrchestrator promptRuntime).deadline = ms 300 ∧
    (Shutdown chainOrchestrator promptRuntime).deadline
      ≠ promptRuntime.now + chainOrchestrator.globalTimeout ∧
    (Shutdown chainOrchestrator promptRuntime).warned = false ∧
    (Shutdown chainOrchestrator promptRuntime).returned =
      [ { Name := "drain", Success := true, Duration := ms 200, Error := none },
        { Name := "closeDB", Success := true, Duration := ms 200, Error := none } ] := by
  decide

/-- Claim C5, counterexample: a task registered with a timeout of minus one
second whose handler takes 10ms does not complete within its timeout; the
timer expires at once and the recorded duration is 0, which is not the
timeout. -/
theorem executeTask_negative_timeout :
    (∀ e, hastyTask.Handler.elapsed = some e → hastyTask.Timeout < (e : Int)) ∧
    (executeTask hastyTask true).Success = false ∧
    (executeTask hastyTask true).Duration = 0 ∧
    (executeTask hastyTask true).Duration ≠ hastyTask.Timeout := by
  refine ⟨?_, by decide, by decide, by decide⟩
  intro e he
  have h : e = ms 10 := by
    simp only [hastyTask, Option.some.injEq] at he
    exact he.symm
  subst h
  decide

/-- Claim C5, amended: for every task with a non-negative `Timeout` whose
handler does not complete within the `Timeout` (it never returns, or returns
later), `executeTask` returns a `TaskResult` with the task's name,
`Success = false` and the timeout error, which carries the task name and the
timeout; the handler's own outcome is not reported, and the recorded duration
is the timeout. -/
theorem executeTask_timeout (task : ShutdownTask) (preferDone : Bool)
    (hto : 0 ≤ task.Timeout)
    (hlate : ∀ e, task.Handler.elapsed = some e → task.Timeout < (e : Int)) :
    executeTask task preferDone =
      { Name := task.Name, Success := false, Duration := task.Timeout,
        Error := some (.timedOut task.Name task.Timeout) } := by
  have hd : ((timerFires task.Timeout : Nat) : Int) = task.Timeout := by
    simp [timerFires, Int.toNat_of_nonneg hto]
  have hsel : selectCase task.Handler task.Timeout preferDone
      = .timer (timerFires task.Timeout) := by
    unfold selectCase
    cases he : task.Handler.elapsed with
    | none => rfl
    | some e =>
      have h1 := hlate e he
      have h2 : timerFires task.Timeout < e := by
        have : ((timerFires task.Timeout : Nat) : Int) < (e : Int) := by rw [hd]; exact h1
        exact_mod_cast this
      have h3 : ¬ e < timerFires task.Timeout := by omega
      simp [h2, h3]
  unfold executeTask
  rw [hsel]
  simp [hd]

/-- Claim C5, witness: a handler that sleeps 200ms under a timeout of 50ms. -/
theorem executeTask_timeout_witness :
    (0 : Int) ≤ sleepyTask.Timeout ∧
    executeTask sleepyTask true =
      { Name := "drain", Success := false, Duration := ms 50,
        Error := some (.timedOut "drain" (ms 50)) } := by
  refine ⟨by decide, executeTask_timeout sleepyTask true (by decide) ?_⟩
  intro e he
  have h : e = ms 200 := by
    simp only [sleepyTask, Option.some.injEq] at he
    exact he.symm
  subst h
  decide

/-! ## Claims about the resource registry -/

/-- Claim C6, the code at the failing input: the only entry of the registry is
active and has no cleanup.  `CloseAll` returns an empty failure mapping and
leaves the entry active, so the active count afterwards is 1 and not 0, while
`CloseResource` on the same registry makes the entry inactive. -/
theorem closeAll_skips_bare_entry :
    (CloseAll bareRegistry [] 0).errors.keys = [] ∧
    GetActiveCount (CloseAll bareRegistry [] 0).rm = 1 ∧
    GetActiveCount (CloseResource bareRegistry "fh" 0).rm = 0 := by
  decide

/-- Claim C7: for every registry state, every iteration order and every world,
the sweep of `CloseAll` visits every key exactly once.  When the sweep reaches
an entry that was active and has a cleanup, the cleanup is invoked in the
world left by the entries visited before, whatever their cleanups returned,
and the returned mapping holds under that name exactly the error this
invocation returned (nothing when it returned nil).  An entry that was
inactive or has no cleanup leaves the world as it is and does not appear in
the mapping, and neither does a name that is not a key. -/
theorem closeAll_errors {W : Type} (rm : ResourceManager W) (order : List Nat) (w : W) :
    (pickOrder order rm.resources.keys).Perm rm.resources.keys ∧
    (∀ n, n ∉ rm.resources.keys → (CloseAll rm order w).errors.lookup n = none) ∧
    (∀ pre n post, pickOrder order rm.resources.keys = pre ++ n :: post →
      ∃ res, rm.resources.lookup n = some res ∧
        (∀ cleanup, dueCleanup res = some cleanup →
          (closeAllSweep { resources := rm.resources, errors := ∅, world := w }
              (pre ++ [n])).world
            = (cleanup (closeAllSweep { resources := rm.resources, errors := ∅, world := w }
                pre).world).2 ∧
          (CloseAll rm order w).errors.lookup n
            = (cleanup (closeAllSweep { resources := rm.resources, errors := ∅, world := w }
                pre).world).1) ∧
        (dueCleanup res = none →
          (closeAllSweep { resources := rm.resources, errors := ∅, world := w }
              (pre ++ [n])).world
            = (closeAllSweep { resources := rm.resources, errors := ∅, world := w }
                pre).world ∧
          (CloseAll rm order w).errors.lookup n = none)) := by
  have hperm := pickOrder_perm order rm.resources.keys
  refine ⟨hperm, fun n hn => ?_, fun pre n post hsplit => ?_⟩
  · have hn' : n ∉ pickOrder order rm.resources.keys := fun h => hn (hperm.subset h)
    have := (closeAllSweep_other _ { resources := rm.resources, errors := ∅, world := w } hn').2
    simpa [CloseAll] using this
  · have hnd : (pre ++ n :: post).Nodup := by
      rw [← hsplit]; exact hperm.nodup_iff.mpr rm.resources.keys_nodup
    have hpre : n ∉ pre := fun h => (List.nodup_append.mp hnd).2.2 h (by simp)
    have hpost : n ∉ post := (List.nodup_cons.mp (List.nodup_append.mp hnd).2.1).1
    have hkey : n ∈ rm.resources.keys := hperm.subset (by rw [hsplit]; simp)
    obtain ⟨res, hres⟩ : ∃ res, rm.resources.lookup n = some res :=
      Option.isSome_iff_exists.mp (AList.lookup_isSome.mpr (AList.mem_keys.mpr hkey))
    refine ⟨res, hres, ?_⟩
    set init : SweepState W := { resources := rm.resources, errors := ∅, world := w } with hinit
    have hb := closeAllSweep_other pre init hpre
    have hbl : (closeAllSweep init pre).resources.lookup n = some res := by rw [hb.1]; exact hres
    have hbe : (closeAllSweep init pre).errors.lookup n = none := by
      rw [hb.2]; simp [hinit]
    have hv := closeAllVisit_self (closeAllSweep init pre) n res hbl
    have hout : (CloseAll rm order w).errors.lookup n
        = (closeAllVisit (closeAllSweep init pre) n).errors.lookup n := by
      unfold CloseAll
      rw [hsplit, closeAllSweep_append, closeAllSweep_cons]
      exact (closeAllSweep_other post _ hpost).2
    have hstep : closeAllSweep init (pre ++ [n]) = closeAllVisit (closeAllSweep init pre) n := by
      rw [closeAllSweep_append]; simp [closeAllSweep]
    rw [hout, hstep]
    unfold dueCleanup
    cases ha : res.Active with
    | false =>
      simp only [ha] at hv
      exact ⟨fun c hc => by simp at hc, fun _ => ⟨hv.1, hv.2.trans hbe⟩⟩
    | true =>
      cases hc : res.Cleanup with
      | none =>
        simp only [ha, hc] at hv
        exact ⟨fun c hc' => by simp at hc', fun _ => ⟨hv.1, hv.2.trans hbe⟩⟩
      | some c =>
        simp only [ha, hc] at hv
        refine ⟨fun c' hc' => ?_, fun h => by simp at h⟩
        have hcc : c = c' := by simpa using hc'
        subst hcc
        refine ⟨hv.1, ?_⟩
        rw [hv.2, hbe]
        cases (c (closeAllSweep init pre).world).1 <;> rfl

/-- Claim C7, witness: in a registry with one failing and one succeeding
cleanup, the sweep visits `cache` and then `db`; the failing cleanup of `db` is
the second invocation and its error is the only one in the mapping. -/
theorem closeAll_errors_witness :
    (CloseAll mixedRegistry [] 0).errors.lookup "db" = some (.external "disk full") ∧
    (CloseAll mixedRegistry [] 0).errors.lookup "cache" = none ∧
    (CloseAll mixedRegistry [] 0).world = 2 := by
  obtain ⟨res, hres, hdue, _⟩ :=
    (closeAll_errors mixedRegistry [] 0).2.2 ["cache"] "db" [] (by decide)
  have hentry : mixedRegistry.resources.lookup "db"
      = some { Name := "db", ResType := DatabasePool, Active := true,
               Cleanup := some countingFail } := rfl
  rw [hentry] at hres
  have hres' := Option.some.inj hres
  subst hres'
  exact ⟨(hdue countingFail rfl).2, rfl, rfl⟩

/-- Claim C8: for every registry state, every world and every name whose entry
is active, `CloseResource(name)` invokes the entry's cleanup when there is
one.  If the cleanup fails, the call returns the error that carries the name
and wraps the cause, and the registry is unchanged, so the entry stays active
and a second `CloseResource(name)` invokes the cleanup again.  If the cleanup
succeeds or is absent, the call returns nil and the entry becomes inactive,
the other entries being untouched. -/
theorem closeResource_active {W : Type} (rm : ResourceManager W) (name : String)
    (res : Resource W) (w : W)
    (hres : rm.resources.lookup name = some res) (hact : res.Active = true) :
    (∀ cleanup, res.Cleanup = some cleanup →
      (∀ cause, (cleanup w).1 = some cause →
        (CloseResource rm name w).err = some (.closeFailed name cause) ∧
        (CloseResource rm name w).world = (cleanup w).2 ∧
        (CloseResource rm name w).rm = rm ∧
        (CloseResource (CloseResource rm name w).rm name (CloseResource rm name w).world).world
          = (cleanup (cleanup w).2).2) ∧
      ((cleanup w).1 = none →
        (CloseResource rm name w).err = none ∧
        (CloseResource rm name w).world = (cleanup w).2 ∧
        (CloseResource rm name w).rm.resources.lookup name = some { res with Active := false } ∧
        ∀ other, other ≠ name →
          (CloseResource rm name w).rm.resources.lookup other = rm.resources.lookup other)) ∧
    (res.Cleanup = none →
      (CloseResource rm name w).err = none ∧
      (CloseResource rm name w).world = w ∧
      (CloseResource rm name w).rm.resources.lookup name = some { res with Active := false } ∧
      ∀ other, other ≠ name →
        (CloseResource rm name w).rm.resources.lookup other = rm.resources.lookup other) := by
  refine ⟨fun cleanup hc => ⟨fun cause hcause => ?_, fun hnone => ?_⟩, fun hc => ?_⟩
  · have h1 : CloseResource rm name w
        = { err := some (.closeFailed name cause), rm := rm, world := (cleanup w).2 } := by
      unfold CloseResource
      simp only [hres, hact, hc]
      rcases hcw : cleanup w with ⟨r, w'⟩
      rw [hcw] at hcause
      simp at hcause
      subst hcause
      simp
    refine ⟨by rw [h1], by rw [h1], by rw [h1], ?_⟩
    rw [h1]
    simp only
    unfold CloseResource
    simp only [hres, hact, hc]
    rcases hcw : cleanup (cleanup w).2 with ⟨r, w'⟩
    cases r <;> simp
  · have h1 : CloseResource rm name w
        = { err := none, rm := { resources := markInactive rm.resources name res },
            world := (cleanup w).2 } := by
      unfold CloseResource
      simp only [hres, hact, hc]
      rcases hcw : cleanup w with ⟨r, w'⟩
      rw [hcw] at hnone
      simp at hnone
      subst hnone
      simp
    rw [h1]
    refine ⟨rfl, rfl, ?_, fun other ho => ?_⟩
    · simp [markInactive, AList.lookup_insert]
    · simp [markInactive, AList.lookup_insert_ne ho]
  · have h1 : CloseResource rm name w
        = { err := none, rm := { resources := markInactive rm.resources name res },
            world := w } := by
      unfold CloseResource
      simp [hres, hact, hc]
    rw [h1]
    refine ⟨rfl, rfl, ?_, fun other ho => ?_⟩
    · simp [markInactive, AList.lookup_insert]
    · simp [markInactive, AList.lookup_insert_ne ho]

/-- Claim C8, witness: a cleanup that fails once; the first call reports the
wrapped failure and the second call runs the cleanup a second time. -/
theorem closeResource_active_witness :
    flakyRegistry.resources.lookup "db" = some flakyEntry ∧
    flakyEntry.Active = true ∧
    (CloseResource flakyRegistry "db" 0).err
      = some (.closeFailed "db" (.external "busy")) ∧
    (CloseResource (CloseResource flakyRegistry "db" 0).rm "db"
      (CloseResource flakyRegistry "db" 0).world).world = 2 :=
  ⟨rfl, rfl,
    (((closeResource_active flakyRegistry "db" flakyEntry 0 rfl rfl).1 countingFlaky rfl).1
      (.external "busy") rfl).1,
    (((closeResource_active flakyRegistry "db" flakyEntry 0 rfl rfl).1 countingFlaky rfl).1
      (.external "busy") rfl).2.2.2⟩

/-- Claim C9: for every registry state, every world and every name whose entry
is inactive, `CloseResource(name)` returns nil, invokes no cleanup (the world
is unchanged) and leaves the registry unchanged.  After one successful
`CloseResource(name)`, any number of further `CloseResource(name)` calls all
return nil and leave registry and world as they were: the cleanup is not
invoked a second time. -/
theorem closeResource_idempotent {W : Type} (rm : ResourceManager W) (name : String) (w : W) :
    (∀ res, rm.resources.lookup name = some res → res.Active = false →
      CloseResource rm name w = { err := none, rm := rm, world := w }) ∧
    ((CloseResource rm name w).err = none →
      ∀ k, closeTimes name k (CloseResource rm name w).rm (CloseResource rm name w).world
        = (List.replicate k none, (CloseResource rm name w).rm,
            (CloseResource rm name w).world)) := by
  have hin : ∀ (rm' : ResourceManager W) (w' : W) res, rm'.resources.lookup name = some res →
      res.Active = false → CloseResource rm' name w' = { err := none, rm := rm', world := w' } := by
    intro rm' w' res hl ha
    unfold CloseResource
    simp [hl, ha]
  refine ⟨hin rm w, fun hok => ?_⟩
  -- after a successful call the entry is inactive
  have hafter : ∃ res, (CloseResource rm name w).rm.resources.lookup name = some res ∧
      res.Active = false := by
    unfold CloseResource at hok ⊢
    cases hl : rm.resources.lookup name with
    | none => simp [hl] at hok
    | some res =>
      simp only [hl] at hok ⊢
      cases ha : res.Active with
      | false => simp [ha, hl]
      | true =>
        simp only [ha] at hok ⊢
        cases hc : res.Cleanup with
        | none => simp [markInactive, AList.lookup_insert]
        | some c =>
          simp only [hc] at hok ⊢
          rcases hcw : c w with ⟨r, w'⟩
          cases r with
          | none => simp [markInactive, AList.lookup_insert]
          | some e => simp [hcw] at hok
  obtain ⟨res, hl, ha⟩ := hafter
  intro k
  induction k with
  | zero => rfl
  | succ k ih =>
    simp only [closeTimes, hin _ _ res hl ha, ih, List.replicate_succ]

/-- Claim C9, witness: after the resource without cleanup is closed once, three
more calls return nil and change nothing. -/
theorem closeResource_idempotent_witness :
    (CloseResource bareRegistry "fh" 0).err = none ∧
    closeTimes "fh" 3 (CloseResource bareRegistry "fh" 0).rm
        (CloseResource bareRegistry "fh" 0).world
      = ([none, none, none], (CloseResource bareRegistry "fh" 0).rm,
          (CloseResource bareRegistry "fh" 0).world) :=
  ⟨rfl, (closeResource_idempotent bareRegistry "fh" 0).2 rfl 3⟩

/-- Claim C10: for every registry state, every world and every name,
`CloseResource(name)` returns a not-found error if and only if the registry
has no entry under that name; in that case the error names the resource, no
cleanup is invoked (the world is unchanged) and the registry is unchanged. -/
theorem closeResource_notFound_iff {W : Type} (rm : ResourceManager W) (name : String) (w : W) :
    ((∃ e, (CloseResource rm name w).err = some e ∧ e.isNotFound = true)
      ↔ rm.resources.lookup name = none) ∧
    (rm.resources.lookup name = none →
      CloseResource rm name w = { err := some (.notFound name), rm := rm, world := w }) := by
  have hmiss : rm.resources.lookup name = none →
      CloseResource rm name w = { err := some (.notFound name), rm := rm, world := w } := by
    intro hl
    unfold CloseResource
    simp [hl]
  refine ⟨⟨?_, fun hl => ⟨.notFound name, by rw [hmiss hl], rfl⟩⟩, hmiss⟩
  rintro ⟨e, he, hnf⟩
  unfold CloseResource at he
  cases hl : rm.resources.lookup name with
  | none => rfl
  | some res =>
    exfalso
    simp only [hl] at he
    cases ha : res.Active with
    | false => simp [ha] at he
    | true =>
      simp only [ha] at he
      cases hc : res.Cleanup with
      | none => simp [hc] at he
      | some c =>
        simp only [hc] at he
        rcases hcw : c w with ⟨r, w'⟩
        cases r with
        | none => simp [hcw] at he
        | some e' =>
          simp [hcw] at he
          subst he
          simp [GoError.isNotFound] at hnf

/-- Claim C10, witness: closing a name that was never registered. -/
theorem closeResource_notFound_iff_witness :
    bareRegistry.resources.lookup "queue" = none ∧
    CloseResource bareRegistry "queue" 7
      = { err := some (.notFound "queue"), rm := bareRegistry, world := 7 } :=
  ⟨rfl, (closeResource_notFound_iff bareRegistry "queue" 7).2 rfl⟩

/-! ## The queue loop of `buildExecutionOrder`: the set of dequeued names -/

/-- With distinct names, every dependency of a dequeued task is dequeued. -/
theorem kahnFinal_deps_processed (tasks : List ShutdownTask) (mapOrder : List Nat)
    (hd : (taskNames tasks).Nodup) {t : ShutdownTask}
    (ht : t ∈ (kahnFinal tasks mapOrder).ordered) :
    ∀ d ∈ t.DependsOn, d ∈ processed (kahnFinal tasks mapOrder) := by
  intro d hdm
  obtain ⟨p, s, hsplit⟩ := List.append_of_mem ht
  have h := (kahnFinal_invDistinct tasks hd mapOrder).topo p t s hsplit d hdm
  rw [processed, hsplit]
  simp only [List.map_append, List.mem_append]
  exact Or.inl h

/-- Once the queue loop has stopped on an empty queue, more fuel changes nothing. -/
theorem drainQueue_more_fuel (g : DepGraph) (k : Nat) :
    ∀ (fuel : Nat) (st : KahnState), (drainQueue g fuel st).queue = [] →
      drainQueue g (fuel + k) st = drainQueue g fuel st := by
  intro fuel
  induction fuel with
  | zero =>
    intro st h
    simp only [drainQueue] at h
    cases k with
    | zero => rfl
    | succ k => simp [drainQueue, h]
  | succ fuel ih =>
    intro st h
    rw [Nat.succ_add]
    cases hq : st.queue with
    | nil => simp [drainQueue, hq]
    | cons name rest =>
      simp only [drainQueue, hq] at h ⊢
      exact ih _ h

/-- A list of distinct names releases no more than a list that contains it. -/
theorem released_mono (tasks : List ShutdownTask) {P Q : List String} (hnd : P.Nodup)
    (hsub : P ⊆ Q) (n : String) : released tasks P n ≤ released tasks Q n := by
  obtain ⟨l, hperm, hsl⟩ := hnd.subperm hsub
  have h1 : released tasks l n = released tasks P n :=
    (hperm.map _).sum_eq
  rw [← h1]
  exact (hsl.map _).sum_le_sum (fun a _ => Nat.zero_le a)

/-- The decrements received after one more name has been dequeued. -/
theorem released_snoc (tasks : List ShutdownTask) (P : List String) (name n : String) :
    released tasks (P ++ [name]) n = released tasks P n + (dependentsOf tasks name).count n := by
  simp [released]

/-- The first value of a counter is a length. -/
theorem indexTasks_depCount_nonneg (tasks : List ShutdownTask) (n : String) :
    0 ≤ mapGet (indexTasks tasks).depCount 0 n := by
  induction tasks using List.reverseRecOn with
  | nil => simp [indexTasks, mapGet_empty]
  | append_singleton ts t ih =>
    rw [indexTasks_snoc]
    simp only [indexTask]
    by_cases hn : n = t.Name
    · subst hn
      rw [mapGet_insert_same]
      exact Int.natCast_nonneg _
    · rw [mapGet_insert_other _ _ _ hn]
      exact ih

/-- One iteration of the queue loop in closed form. -/
theorem kahnStep_spec (tasks : List ShutdownTask) (st : KahnState) (name : String)
    (rest : List String) (hq : st.queue = name :: rest) (inv : KahnInv tasks st) :
    processed (kahnStep (indexTasks tasks) st name rest) = processed st ++ [name] ∧
    (∀ n, mapGet (kahnStep (indexTasks tasks) st name rest).depCount 0 n
      = mapGet st.depCount 0 n - (((dependentsOf tasks name).count n : Nat) : Int)) ∧
    ∃ added, (kahnStep (indexTasks tasks) st name rest).queue = rest ++ added ∧
      ∀ n, n ∈ added ↔ (n ∈ dependentsOf tasks name ∧ 0 < mapGet st.depCount 0 n ∧
        mapGet st.depCount 0 n ≤ (((dependentsOf tasks name).count n : Nat) : Int)) := by
  have hname : name ∈ taskNames tasks := inv.known name (by simp [hq])
  obtain ⟨hval, added, hadd, _, hmem⟩ :=
    releaseDependents_spec (mapGet (indexTasks tasks).dependents [] name) st.depCount rest
  have hdc : ∀ n, mapGet (kahnStep (indexTasks tasks) st name rest).depCount 0 n
      = mapGet st.depCount 0 n
        - (((mapGet (indexTasks tasks).dependents [] name).count n : Nat) : Int) := hval
  have hqueue : (kahnStep (indexTasks tasks) st name rest).queue = rest ++ added := hadd
  rw [indexTasks_dependents] at hdc hmem
  exact ⟨processed_kahnStep tasks st name rest hname, hdc, added, hqueue, hmem⟩

/-- One iteration of the queue loop keeps the counting invariant. -/
theorem kahnStep_invCount (tasks : List ShutdownTask) (st : KahnState) (name : String)
    (rest : List String) (hq : st.queue = name :: rest) (inv : KahnInv tasks st)
    (invC : KahnInvCount tasks st) :
    KahnInvCount tasks (kahnStep (indexTasks tasks) st name rest) := by
  obtain ⟨hproc, hdc, added, hqueue, hmem⟩ := kahnStep_spec tasks st name rest hq inv
  refine ⟨fun n => ?_, fun n hn hle => ?_⟩
  · rw [hdc, invC.counter, hproc, released_snoc]
    push_cast
    ring
  · rw [hproc, hqueue]
    rw [hdc] at hle
    by_cases hold : mapGet st.depCount 0 n ≤ 0
    · have := invC.due n hn hold
      rw [hq] at this
      simp only [List.mem_append, List.mem_cons, List.mem_singleton] at this ⊢
      tauto
    · have hpos : 0 < mapGet st.depCount 0 n := by omega
      have hcnt : 0 < (dependentsOf tasks name).count n := by omega
      have : n ∈ added := (hmem n).mpr ⟨List.count_pos_iff.mp hcnt, hpos, by omega⟩
      simp only [List.mem_append]
      exact Or.inr (Or.inr this)

/-- The counting invariant holds when the queue loop is entered. -/
theorem initial_invCount (tasks : List ShutdownTask) (mapOrder : List Nat) :
    KahnInvCount tasks
      { depCount := (indexTasks tasks).depCount
        queue := initialQueue (indexTasks tasks).depCount
          (pickOrder mapOrder (indexTasks tasks).depCount.keys)
        ordered := [] } := by
  refine ⟨fun n => by simp [processed, released], fun n hn hle => ?_⟩
  have h0 := indexTasks_depCount_nonneg tasks n
  exact (initial_inv tasks mapOrder).seen n hn (le_antisymm hle h0)

/-- The counting invariant holds at the end of `buildExecutionOrder`. -/
theorem kahnFinal_invCount (tasks : List ShutdownTask) (mapOrder : List Nat) :
    KahnInvCount tasks (kahnFinal tasks mapOrder) :=
  (drainQueue_preserves _ (fun st => KahnInv tasks st ∧ KahnInvCount tasks st)
    (fun st name rest hq h =>
      ⟨kahnStep_inv tasks st name rest hq h.1, kahnStep_invCount tasks st name rest hq h.1 h.2⟩)
    _ _ ⟨initial_inv tasks mapOrder, initial_invCount tasks mapOrder⟩).2

/-- The dequeued names are the task names whose counter is used up by the
decrements that the dequeued names release. -/
theorem kahnFinal_processed_iff (tasks : List ShutdownTask) (mapOrder : List Nat) (n : String) :
    n ∈ processed (kahnFinal tasks mapOrder) ↔
      n ∈ taskNames tasks ∧
      mapGet (indexTasks tasks).depCount 0 n
        ≤ ((released tasks (processed (kahnFinal tasks mapOrder)) n : Nat) : Int) := by
  have inv := kahnFinal_inv tasks mapOrder
  have invC := kahnFinal_invCount tasks mapOrder
  have hq := buildExecutionOrder_queue_empty tasks mapOrder
  constructor
  · intro hn
    have hmem : n ∈ processed (kahnFinal tasks mapOrder) ++ (kahnFinal tasks mapOrder).queue :=
      List.mem_append_left _ hn
    have h1 := inv.nonpos n hmem
    rw [invC.counter] at h1
    exact ⟨inv.known n hmem, by omega⟩
  · rintro ⟨hn, hle⟩
    have h1 : mapGet (kahnFinal tasks mapOrder).depCount 0 n ≤ 0 := by
      rw [invC.counter]; omega
    have := invC.due n hn h1
    rwa [hq, List.append_nil] at this

/-- Lists with the same graph have the same names. -/
theorem sameGraph_taskNames {a b : List ShutdownTask} (h : SameGraph a b) :
    taskNames a = taskNames b := by
  induction h with
  | nil => rfl
  | cons hxy _ ih =>
    simp only [taskNames, List.map_cons] at ih ⊢
    rw [hxy.1, ih]

/-- Lists with the same graph fill `dependents` alike. -/
theorem sameGraph_dependentsOf {a b : List ShutdownTask} (h : SameGraph a b) (x : String) :
    dependentsOf a x = dependentsOf b x := by
  induction h with
  | nil => rfl
  | cons hxy _ ih =>
    simp only [dependentsOf]
    rw [hxy.1, hxy.2, ih]

/-- Lists with the same graph fill `depCount` alike. -/
theorem sameGraph_depCount {a b : List ShutdownTask} (h : SameGraph a b) :
    (indexTasks a).depCount = (indexTasks b).depCount := by
  have key : ∀ g₁ g₂ : DepGraph, g₁.depCount = g₂.depCount →
      (a.foldl indexTask g₁).depCount = (b.foldl indexTask g₂).depCount := by
    induction h with
    | nil => intro g₁ g₂ hg; exact hg
    | cons hxy _ ih =>
      intro g₁ g₂ hg
      simp only [List.foldl_cons]
      refine ih _ _ ?_
      simp only [indexTask, hg, hxy.1, hxy.2]
  exact key _ _ rfl

/-- Lists with the same graph release the same decrements. -/
theorem sameGraph_released {a b : List ShutdownTask} (h : SameGraph a b) (P : List String)
    (n : String) : released a P n = released b P n := by
  simp only [released, sameGraph_dependentsOf h]

/-- Whatever is dequeued for one iteration order and one choice of handlers is
dequeued for every other. -/
theorem kahnFinal_processed_subset {a b : List ShutdownTask} (h : SameGraph a b)
    (mo₁ mo₂ : List Nat) :
    processed (kahnFinal a mo₁) ⊆ processed (kahnFinal b mo₂) := by
  have key := drainQueue_preserves (indexTasks a)
    (fun st => KahnInv a st ∧ KahnInvCount a st ∧ processed st ⊆ processed (kahnFinal b mo₂))
    (fun st name rest hq hst => by
      obtain ⟨inv, invC, hsub⟩ := hst
      refine ⟨kahnStep_inv a st name rest hq inv, kahnStep_invCount a st name rest hq inv invC, ?_⟩
      rw [(kahnStep_spec a st name rest hq inv).1]
      intro n hn
      rcases List.mem_append.mp hn with hn | hn
      · exact hsub hn
      · have hn' : n = name := by simpa using hn
        subst hn'
        have hmem : n ∈ processed st ++ st.queue := by rw [hq]; simp
        have h1 := inv.nonpos n hmem
        rw [invC.counter] at h1
        have h2 := released_mono a (List.nodup_append.mp inv.nodup).1 hsub n
        refine (kahnFinal_processed_iff b mo₂ n).mpr ⟨?_, ?_⟩
        · rw [← sameGraph_taskNames h]; exact inv.known n hmem
        · rw [← sameGraph_depCount h, ← sameGraph_released h]
          omega)
    a.length _ ⟨initial_inv a mo₁, initial_invCount a mo₁, by simp [processed]⟩
  exact key.2.2

/-- The relation `SameGraph` is symmetric. -/
theorem sameGraph_symm {a b : List ShutdownTask} (h : SameGraph a b) : SameGraph b a := by
  induction h with
  | nil => exact List.Forall₂.nil
  | cons hxy _ ih => exact List.Forall₂.cons ⟨hxy.1.symm, hxy.2.symm⟩ ih

/-- The set of dequeued names depends neither on the iteration order nor on
handlers and timeouts. -/
theorem kahnFinal_processed_perm {a b : List ShutdownTask} (h : SameGraph a b)
    (mo₁ mo₂ : List Nat) :
    (processed (kahnFinal a mo₁)).Perm (processed (kahnFinal b mo₂)) := by
  have n1 := (List.nodup_append.mp (kahnFinal_inv a mo₁).nodup).1
  have n2 := (List.nodup_append.mp (kahnFinal_inv b mo₂).nodup).1
  refine (List.perm_ext_iff_of_nodup n1 n2).mpr (fun n => ⟨fun hn => ?_, fun hn => ?_⟩)
  · exact kahnFinal_processed_subset h mo₁ mo₂ hn
  · exact kahnFinal_processed_subset (sameGraph_symm h) mo₂ mo₁ hn

/-! ## Close operations and the stored entries -/

/-- Nothing changed is a permitted change. -/
theorem closedFrom_refl {W : Type} (e : Option (Resource W)) : ClosedFrom e e := Or.inl rfl

/-- Permitted changes compose. -/
theorem closedFrom_trans {W : Type} {a b c : Option (Resource W)}
    (h1 : ClosedFrom a b) (h2 : ClosedFrom b c) : ClosedFrom a c := by
  rcases h2 with h2 | ⟨res2, hb, hact2, hc⟩
  · rw [h2]; exact h1
  · rcases h1 with h1 | ⟨res1, _, _, hb'⟩
    · rw [h1] at hb; exact Or.inr ⟨res2, hb, hact2, hc⟩
    · rw [hb'] at hb
      have := Option.some.inj hb
      rw [← this] at hact2
      simp at hact2

/-- A permitted change neither adds nor removes the entry. -/
theorem closedFrom_isSome {W : Type} {a b : Option (Resource W)} (h : ClosedFrom a b) :
    b.isSome = a.isSome := by
  rcases h with h | ⟨res, ha, _, hb⟩
  · rw [h]
  · rw [ha, hb]; rfl

/-- The store `res.Active = false` on an active entry is a permitted change. -/
theorem markInactive_closedFrom {W : Type} (m : GoMap (Resource W)) (k : String)
    (res : Resource W) (hl : m.lookup k = some res) (ha : res.Active = true) (n : String) :
    ClosedFrom (m.lookup n) ((markInactive m k res).lookup n) := by
  by_cases hn : n = k
  · subst hn
    exact Or.inr ⟨res, hl, ha, by simp [markInactive, AList.lookup_insert]⟩
  · exact Or.inl (by simp [markInactive, AList.lookup_insert_ne hn])

/-- One visit of the sweep of `CloseAll` makes a permitted change. -/
theorem closeAllVisit_closedFrom {W : Type} (st : SweepState W) (m n : String) :
    ClosedFrom (st.resources.lookup n) ((closeAllVisit st m).resources.lookup n) := by
  unfold closeAllVisit
  cases hl : st.resources.lookup m with
  | none => exact closedFrom_refl _
  | some res =>
    simp only
    cases ha : res.Active with
    | false => simp only [Bool.false_eq_true, if_false]; exact closedFrom_refl _
    | true =>
      simp only [if_true]
      cases hc : res.Cleanup with
      | none => exact closedFrom_refl _
      | some c =>
        simp only
        rcases hcw : c st.world with ⟨r, w'⟩
        cases r with
        | none => exact markInactive_closedFrom _ _ _ hl ha n
        | some e => exact closedFrom_refl _

/-- A sweep of `CloseAll` makes a permitted change. -/
theorem closeAllSweep_closedFrom {W : Type} (names : List String) (n : String) :
    ∀ st : SweepState W,
      ClosedFrom (st.resources.lookup n) ((closeAllSweep st names).resources.lookup n) := by
  induction names with
  | nil => intro st; exact closedFrom_refl _
  | cons m rest ih =>
    intro st
    rw [closeAllSweep_cons]
    exact closedFrom_trans (closeAllVisit_closedFrom st m n) (ih _)

/-- The method `CloseResource` makes a permitted change. -/
theorem closeResource_closedFrom {W : Type} (rm : ResourceManager W) (name : String) (w : W)
    (n : String) :
    ClosedFrom (rm.resources.lookup n) ((CloseResource rm name w).rm.resources.lookup n) := by
  unfold CloseResource
  cases hl : rm.resources.lookup name with
  | none => exact closedFrom_refl _
  | some res =>
    simp only
    cases ha : res.Active with
    | false => simp only [Bool.not_false, if_true]; exact closedFrom_refl _
    | true =>
      simp only [Bool.not_true, Bool.false_eq_true, if_false]
      cases hc : res.Cleanup with
      | none => exact markInactive_closedFrom _ _ _ hl ha n
      | some c =>
        simp only
        rcases hcw : c w with ⟨r, w'⟩
        cases r with
        | none => exact markInactive_closedFrom _ _ _ hl ha n
        | some e => exact closedFrom_refl _

/-- A name is a key when a read finds an entry. -/
theorem mem_keys_iff_isSome {V : Type} (m : GoMap V) (n : String) :
    n ∈ m.keys ↔ (m.lookup n).isSome = true := by
  rw [AList.lookup_isSome, AList.mem_keys]

/-! ## Claims about the resource registry, continued -/

/-- Claim C11: for every registry state, whether or not it already holds an
entry under `name`, after `Register(name, kind, cleanup)` the registry holds
under `name` a new active entry with the new kind and cleanup, and every other
entry is unchanged.  A subsequent `CloseResource(name)` invokes the new
cleanup, once, and nothing else: the world it leaves and the error it returns
are those of the new cleanup, whatever the replaced entry was. -/
theorem register_replaces {W : Type} (rm : ResourceManager W) (name : String)
    (resType : ResourceType) (cleanup : Option (W → Option GoError × W)) (w : W) :
    (Register rm name resType cleanup).resources.lookup name
      = some { Name := name, ResType := resType, Active := true, Cleanup := cleanup } ∧
    (∀ other, other ≠ name →
      (Register rm name resType cleanup).resources.lookup other = rm.resources.lookup other) ∧
    (∀ c, cleanup = some c →
      (CloseResource (Register rm name resType cleanup) name w).world = (c w).2 ∧
      (CloseResource (Register rm name resType cleanup) name w).err
        = ((c w).1).map (GoError.closeFailed name)) ∧
    (cleanup = none →
      (CloseResource (Register rm name resType cleanup) name w).world = w ∧
      (CloseResource (Register rm name resType cleanup) name w).err = none) := by
  have hnew : (Register rm name resType cleanup).resources.lookup name
      = some { Name := name, ResType := resType, Active := true, Cleanup := cleanup } := by
    simp [Register, AList.lookup_insert]
  refine ⟨hnew, fun other ho => ?_, fun c hc => ?_, fun hc => ?_⟩
  · simp [Register, AList.lookup_insert_ne ho]
  · subst hc
    unfold CloseResource
    rw [hnew]
    rcases hcw : c w with ⟨r, w'⟩
    cases r <;> simp [hcw]
  · subst hc
    unfold CloseResource
    rw [hnew]
    simp

/-- Claim C11, witness: `db` is registered with a cleanup that adds 100 to the
world and then again with one that adds 1; closing `db` adds 1. -/
theorem register_replaces_witness :
    (Register (NewResourceManager Nat) "db" DatabasePool (some staleCleanup)).resources.lookup "db"
      = some { Name := "db", ResType := DatabasePool, Active := true,
               Cleanup := some staleCleanup } ∧
    (CloseResource
      (Register (Register (NewResourceManager Nat) "db" DatabasePool (some staleCleanup))
        "db" CacheLayer (some countingOk)) "db" 0).world = 1 ∧
    (CloseResource
      (Register (Register (NewResourceManager Nat) "db" DatabasePool (some staleCleanup))
        "db" CacheLayer (some countingOk)) "db" 0).err = none :=
  ⟨rfl,
    ((register_replaces (Register (NewResourceManager Nat) "db" DatabasePool (some staleCleanup))
      "db" CacheLayer (some countingOk) 0).2.2.1 countingOk rfl).1,
    ((register_replaces (Register (NewResourceManager Nat) "db" DatabasePool (some staleCleanup))
      "db" CacheLayer (some countingOk) 0).2.2.1 countingOk rfl).2⟩

/-! ## Claims about the shutdown orchestrator, continued -/

/-- Claim C12, counterexample: `Shutdown` is called twice on an orchestrator
with one task.  The second run has one result, and `GetResults` afterwards
returns two: the result of the first run is still there. -/
theorem getResults_accumulates :
    ((Shutdown (Shutdown (registerAll (NewShutdownOrchestrator (ms 100)) [drainTask])
        promptRuntime).so promptRuntime).runs).map (fun r => r.result)
      = [ { Name := "drain", Success := true, Duration := ms 200, Error := none } ] ∧
    GetResults (Shutdown (Shutdown (registerAll (NewShutdownOrchestrator (ms 100)) [drainTask])
        promptRuntime).so promptRuntime).so
      = [ { Name := "drain", Success := true, Duration := ms 200, Error := none },
          { Name := "drain", Success := true, Duration := ms 200, Error := none } ] := by
  decide

/-- Claim C12, amended: `GetResults` returns an empty collection on an
orchestrator that has never run, however many tasks are registered.  After any
`Shutdown` call it returns exactly what that call returned: the results that
were stored before the call, followed by results of this run, which are
`executeTask` results of tasks of the execution order, each task at most once
and at least one of them if the execution order is not empty.  Whenever no
goroutine misses a store of another, they are the results of all tasks of the
execution order, one per task. -/
theorem getResults_after_shutdown (globalTimeout : Int) (tasks : List ShutdownTask)
    (so : ShutdownOrchestrator) (rt : Runtime) :
    GetResults (registerAll (NewShutdownOrchestrator globalTimeout) tasks) = [] ∧
    GetResults (Shutdown so rt).so = (Shutdown so rt).returned ∧
    ∃ fresh, GetResults (Shutdown so rt).so = GetResults so ++ fresh ∧
      fresh.Subperm ((buildExecutionOrder so rt.mapOrder).map
        (fun t => executeTask t (rt.preferDone t.Name))) ∧
      (buildExecutionOrder so rt.mapOrder ≠ [] → fresh ≠ []) ∧
      (SerialAppends rt → fresh.Perm ((buildExecutionOrder so rt.mapOrder).map
        (fun t => executeTask t (rt.preferDone t.Name)))) := by
  refine ⟨(registerAll_fresh tasks globalTimeout).2.1, rfl, ?_⟩
  obtain ⟨fresh, h1, h2, h3, h4⟩ := shutdown_returned so rt
  exact ⟨fresh, h1, h2, h3, h4⟩

/-- Claim C12, witness: after one `Shutdown` of the chain `drain`, `closeDB`
with appends that do not race, `GetResults` returns the two results of that
run. -/
theorem getResults_after_shutdown_witness :
    SerialAppends promptRuntime ∧
    GetResults (Shutdown chainOrchestrator promptRuntime).so
      = [ { Name := "drain", Success := true, Duration := ms 200, Error := none },
          { Name := "closeDB", Success := true, Duration := ms 200, Error := none } ] ∧
    ∃ fresh, GetResults (Shutdown chainOrchestrator promptRuntime).so
        = GetResults chainOrchestrator ++ fresh ∧
      fresh.Subperm ((buildExecutionOrder chainOrchestrator promptRuntime.mapOrder).map
        (fun t => executeTask t (promptRuntime.preferDone t.Name))) ∧
      (buildExecutionOrder chainOrchestrator promptRuntime.mapOrder ≠ [] → fresh ≠ []) ∧
      (SerialAppends promptRuntime →
        fresh.Perm ((buildExecutionOrder chainOrchestrator promptRuntime.mapOrder).map
          (fun t => executeTask t (promptRuntime.preferDone t.Name)))) :=
  ⟨by unfold SerialAppends; decide, by decide,
    (getResults_after_shutdown (ms 100) [] chainOrchestrator promptRuntime).2.2⟩

/-- Claim C13, counterexample: `closeDB` names the dependency `ghost`, which
is not registered; `Shutdown` returns the result of `drain` only, and no
result, of kind `GraphError` or other, for `closeDB`. -/
theorem shutdown_unregistered_dependency_dropped :
    (Shutdown (registerAll (NewShutdownOrchestrator (ms 100)) [drainTask, ghostTask])
        promptRuntime).returned
      = [ { Name := "drain", Success := true, Duration := ms 200, Error := none } ] := by
  decide

/-- Claim C13, amended: for every task list with pairwise distinct names
registered on a fresh orchestrator and every choice of the runtime, `Shutdown`
returns no `TaskResult` for a task that names a dependency which is not a
registered task: the task is omitted from the result set.  Every result that
is returned is the `executeTask` result of a registered task, so its error, if
any, is the handler's error or the task timeout. -/
theorem shutdown_omits_unregistered_dependency (tasks : List ShutdownTask)
    (globalTimeout : Int) (rt : Runtime) (hd : (taskNames tasks).Nodup)
    (t : ShutdownTask) (ht : t ∈ tasks) (d : String) (hdep : d ∈ t.DependsOn)
    (hmiss : d ∉ taskNames tasks) :
    (∀ r ∈ (Shutdown (registerAll (NewShutdownOrchestrator globalTimeout) tasks) rt).returned,
      r.Name ≠ t.Name) ∧
    (∀ r ∈ (Shutdown (registerAll (NewShutdownOrchestrator globalTimeout) tasks) rt).returned,
      ∃ t' ∈ tasks, r = executeTask t' (rt.preferDone t'.Name)) := by
  have hperm := shutdown_fresh_returned tasks globalTimeout rt
  have inv := kahnFinal_inv tasks rt.mapOrder
  refine ⟨fun r hr hn => ?_, fun r hr => ?_⟩
  · obtain ⟨t', ht', he⟩ := List.mem_map.mp (hperm.subset hr)
    have hname : t'.Name = t.Name := by rw [← hn, ← he, executeTask_name]
    have : t' = t := task_unique hd (inv.registered t' ht') ht hname
    subst this
    have h1 := kahnFinal_deps_processed tasks rt.mapOrder hd ht' d hdep
    exact hmiss (inv.known d (List.mem_append_left _ h1))
  · obtain ⟨t', ht', he⟩ := List.mem_map.mp (hperm.subset hr)
    exact ⟨t', inv.registered t' ht', he.symm⟩

/-- Claim C13, witness: `closeDB` depends on the unregistered `ghost` and has
no result. -/
theorem shutdown_omits_unregistered_dependency_witness :
    (taskNames [drainTask, ghostTask]).Nodup ∧ "ghost" ∉ taskNames [drainTask, ghostTask] ∧
    ∀ r ∈ (Shutdown (registerAll (NewShutdownOrchestrator (ms 100)) [drainTask, ghostTask])
        promptRuntime).returned, r.Name ≠ "closeDB" :=
  ⟨by decide, by decide,
    (shutdown_omits_unregistered_dependency [drainTask, ghostTask] (ms 100) promptRuntime
      (by decide) ghostTask (by decide) "ghost" (by decide) (by decide)).1⟩

/-- Claim C14, the code at the failing input: the same two independent tasks
are registered with two assignments of handler outcomes.  When `drain` takes
200ms and `flush` 5ms and the appends do not race, both names are reported.
When both handlers take 5ms and the goroutine that stores second had loaded
`so.results` before the first store, both tasks are run but the result of
`flush`, stored first, is overwritten: only `drain` is reported. -/
theorem shutdown_race_drops_result :
    SameGraph [drainTask, flushTask] [quickDrainTask, flushTask] ∧
    (Shutdown (registerAll (NewShutdownOrchestrator (ms 100)) [drainTask, flushTask])
        promptRuntime).returned.map (fun r => r.Name) = ["flush", "drain"] ∧
    (Shutdown (registerAll (NewShutdownOrchestrator (ms 100)) [quickDrainTask, flushTask])
        racyRuntime).runs.map (fun r => r.result)
      = [ { Name := "flush", Success := true, Duration := ms 5, Error := none },
          { Name := "drain", Success := true, Duration := ms 5, Error := none } ] ∧
    (Shutdown (registerAll (NewShutdownOrchestrator (ms 100)) [quickDrainTask, flushTask])
        racyRuntime).returned
      = [ { Name := "drain", Success := true, Duration := ms 5, Error := none } ] :=
  ⟨List.Forall₂.cons ⟨rfl, rfl⟩ (List.Forall₂.cons ⟨rfl, rfl⟩ List.Forall₂.nil),
    by decide, by decide, by decide⟩

/-- Claim C15: every `TaskResult` produced by `executeTask`, for every task,
every behaviour of its handler and every pick of the `select`, carries the
task's name, and its error is present if and only if its success flag is
false. -/
theorem executeTask_error_iff_failed (task : ShutdownTask) (preferDone : Bool) :
    (executeTask task preferDone).Name = task.Name ∧
    ((executeTask task preferDone).Error.isSome = true
      ↔ (executeTask task preferDone).Success = false) := by
  unfold executeTask
  cases selectCase task.Handler task.Timeout preferDone with
  | done err since => cases err <;> simp
  | timer since => simp

/-- Claim C16: for every registry state, `CloseResource` and `CloseAll` leave
the set of registered names as it is, and what they leave under a name is
what was there before, or the same entry with its active flag turned from
true to false; in particular no entry is removed and no inactive entry
becomes active.  `Register` removes no name either. -/
theorem close_is_not_removal {W : Type} (rm : ResourceManager W) (name : String)
    (order : List Nat) (w : W) (n : String) :
    (n ∈ (CloseResource rm name w).rm.resources.keys ↔ n ∈ rm.resources.keys) ∧
    ClosedFrom (rm.resources.lookup n) ((CloseResource rm name w).rm.resources.lookup n) ∧
    (n ∈ (CloseAll rm order w).resources.keys ↔ n ∈ rm.resources.keys) ∧
    ClosedFrom (rm.resources.lookup n) ((CloseAll rm order w).resources.lookup n) ∧
    (∀ resType cleanup, n ∈ rm.resources.keys →
      n ∈ (Register rm name resType cleanup).resources.keys) := by
  have h1 := closeResource_closedFrom rm name w n
  have h2 : ClosedFrom (rm.resources.lookup n) ((CloseAll rm order w).resources.lookup n) :=
    closeAllSweep_closedFrom _ n { resources := rm.resources, errors := ∅, world := w }
  refine ⟨?_, h1, ?_, h2, fun resType cleanup hn => ?_⟩
  · rw [mem_keys_iff_isSome, mem_keys_iff_isSome, closedFrom_isSome h1]
  · rw [mem_keys_iff_isSome, mem_keys_iff_isSome, closedFrom_isSome h2]
  · rw [← AList.mem_keys] at hn ⊢
    exact (AList.mem_insert _).mpr (Or.inr hn)

/-- Claim C16, witness: after `CloseAll` on the registry with one failing and
one succeeding cleanup, `db` is still registered and `cache` has only lost
its active flag. -/
theorem close_is_not_removal_witness :
    ("db" ∈ (CloseAll mixedRegistry [] 0).resources.keys ↔ "db" ∈ mixedRegistry.resources.keys) ∧
    ClosedFrom (mixedRegistry.resources.lookup "cache")
      ((CloseAll mixedRegistry [] 0).resources.lookup "cache") :=
  ⟨(close_is_not_removal mixedRegistry "db" [] 0 "db").2.2.1,
    (close_is_not_removal mixedRegistry "db" [] 0 "cache").2.2.2.1⟩

/-- Claim C17, counterexample: `NewShutdownOrchestrator` called with -1ns
returns an orchestrator, and `Shutdown` on it runs the registered task. -/
theorem newShutdownOrchestrator_accepts_negative :
    NewShutdownOrchestrator (-1)
      = { tasks := [], results := [], globalTimeout := -1, shutdownStart := 0 } ∧
    (Shutdown (registerAll (NewShutdownOrchestrator (-1)) [drainTask]) promptRuntime).returned
      = [ { Name := "drain", Success := true, Duration := ms 200, Error := none } ] := by
  decide

/-- Claim C17, amended: `NewShutdownOrchestrator(d)` reports no error for any
duration `d`, negative or not: it returns an orchestrator without tasks and
results that stores `d` as its global timeout, and tasks are registered on it
as on any other orchestrator: after the registrations it holds exactly these
tasks, still no results and the global timeout `d`. -/
theorem newShutdownOrchestrator_total (d : Int) (tasks : List ShutdownTask) :
    NewShutdownOrchestrator d
      = { tasks := [], results := [], globalTimeout := d, shutdownStart := 0 } ∧
    registerAll (NewShutdownOrchestrator d) tasks
      = { tasks := tasks, results := [], globalTimeout := d, shutdownStart := 0 } ∧
    GetResults (registerAll (NewShutdownOrchestrator d) tasks) = [] := by
  have key : ∀ (ts : List ShutdownTask) (so : ShutdownOrchestrator),
      registerAll so ts = { so with tasks := so.tasks ++ ts } := by
    intro ts
    induction ts with
    | nil => intro so; simp [registerAll]
    | cons t rest ih =>
      intro so
      have hunf : registerAll so (t :: rest) = registerAll (RegisterTask so t) rest := rfl
      rw [hunf, ih]
      simp [RegisterTask]
  have h := key tasks (NewShutdownOrchestrator d)
  refine ⟨rfl, ?_, ?_⟩
  · rw [h]; simp [NewShutdownOrchestrator]
  · rw [h]; rfl

/-- Claim C18: for every task list with pairwise distinct names and every
order in which the runtime iterates over `depCount`, the list returned by
`buildExecutionOrder` is a topological order of what it contains: wherever a
task stands in the output, each name in its `DependsOn` is the name of a task
that stands strictly before it in the output. -/
theorem buildExecutionOrder_topological (so : ShutdownOrchestrator) (mapOrder : List Nat)
    (hd : (taskNames so.tasks).Nodup) :
    ∀ before t after, buildExecutionOrder so mapOrder = before ++ t :: after →
      ∀ d ∈ t.DependsOn, ∃ dep ∈ before, dep.Name = d := by
  intro before t after hsplit d hdm
  have h := (kahnFinal_invDistinct so.tasks hd mapOrder).topo before t after hsplit d hdm
  obtain ⟨dep, hdep, hn⟩ := List.mem_map.mp h
  exact ⟨dep, hdep, hn⟩

/-- Claim C18, witness: `closeDB` comes out after `drain`, which it names. -/
theorem buildExecutionOrder_topological_witness :
    (taskNames chainOrchestrator.tasks).Nodup ∧
    buildExecutionOrder chainOrchestrator [1] = [drainTask] ++ closeDBTask :: [] ∧
    ∀ d ∈ closeDBTask.DependsOn, ∃ dep ∈ [drainTask], dep.Name = d :=
  ⟨by decide, by decide,
    buildExecutionOrder_topological chainOrchestrator [1] (by decide) [drainTask] closeDBTask []
      (by decide)⟩

/-- Claim C19: for every task list with pairwise distinct names in which every
`DependsOn` entry names a registered task and the dependency relation has no
cycle, and for every iteration order of the runtime, `buildExecutionOrder`
returns a permutation of the registered tasks: every registered task appears
in the output exactly once and nothing else appears. -/
theorem buildExecutionOrder_perm (so : ShutdownOrchestrator) (mapOrder : List Nat)
    (hd : (taskNames so.tasks).Nodup) (hreg : DepsRegistered so.tasks)
    (hac : Acyclic so.tasks) :
    (buildExecutionOrder so mapOrder).Perm so.tasks ∧
    (buildExecutionOrder so mapOrder).Nodup ∧
    ∀ t, (buildExecutionOrder so mapOrder).count t = if t ∈ so.tasks then 1 else 0 := by
  have hperm : (buildExecutionOrder so mapOrder).Perm so.tasks :=
    kahnFinal_perm so.tasks mapOrder hd hreg hac
  have hnd : so.tasks.Nodup := List.Nodup.of_map _ hd
  refine ⟨hperm, hperm.nodup_iff.mpr hnd, fun t => ?_⟩
  rw [hperm.count_eq]
  by_cases ht : t ∈ so.tasks
  · rw [if_pos ht]; exact List.count_eq_one_of_mem hnd ht
  · rw [if_neg ht]; exact List.count_eq_zero_of_not_mem ht

/-- Claim C19, witness: the chain `drain`, `closeDB`. -/
theorem buildExecutionOrder_perm_witness :
    (taskNames chainOrchestrator.tasks).Nodup ∧
    DepsRegistered chainOrchestrator.tasks ∧
    Acyclic chainOrchestrator.tasks ∧
    (buildExecutionOrder chainOrchestrator [1]).Perm chainOrchestrator.tasks := by
  have hd : (taskNames chainOrchestrator.tasks).Nodup := by decide
  have hreg : DepsRegistered chainOrchestrator.tasks := by
    unfold DepsRegistered; decide
  have hac : Acyclic chainOrchestrator.tasks := by
    refine acyclic_of_rank _ (fun n => if n = "closeDB" then 1 else 0) ?_
    decide
  exact ⟨hd, hreg, hac, (buildExecutionOrder_perm chainOrchestrator [1] hd hreg hac).1⟩

/-- Claim C20: on every task list, with cycles, self-dependencies, references
to unregistered names and duplicate names allowed, and for every iteration
order of the runtime, the queue loop of `buildExecutionOrder` ends: after at
most `len(so.tasks)` iterations the queue is empty, and allowing more
iterations changes nothing.  No name is dequeued twice, so the output holds
registered tasks with pairwise distinct names, and its length is at most the
number of distinct registered names. -/
theorem buildExecutionOrder_terminates (so : ShutdownOrchestrator) (mapOrder : List Nat)
    (extra : Nat) :
    (kahnFinal so.tasks mapOrder).queue = [] ∧
    drainQueue (indexTasks so.tasks) (so.tasks.length + extra)
        { depCount := (indexTasks so.tasks).depCount
          queue := initialQueue (indexTasks so.tasks).depCount
            (pickOrder mapOrder (indexTasks so.tasks).depCount.keys)
          ordered := [] }
      = kahnFinal so.tasks mapOrder ∧
    ((buildExecutionOrder so mapOrder).map (fun t => t.Name)).Nodup ∧
    (∀ t ∈ buildExecutionOrder so mapOrder, t ∈ so.tasks) ∧
    (buildExecutionOrder so mapOrder).length ≤ (taskNames so.tasks).dedup.length := by
  have hq := buildExecutionOrder_queue_empty so.tasks mapOrder
  have inv := kahnFinal_inv so.tasks mapOrder
  have hnd : (processed (kahnFinal so.tasks mapOrder)).Nodup :=
    (List.nodup_append.mp inv.nodup).1
  refine ⟨hq, drainQueue_more_fuel _ extra _ _ hq, hnd, inv.registered, ?_⟩
  have hsub : processed (kahnFinal so.tasks mapOrder) ⊆ (taskNames so.tasks).dedup :=
    fun n hn => List.mem_dedup.mpr (inv.known n (List.mem_append_left _ hn))
  have := (hnd.subperm hsub).length_le
  simpa [processed, buildExecutionOrder] using this

/-- Claim C20, witness: a list with a self-dependency, a cycle, an
unregistered dependency and a duplicate name yields the second `E` and `F`. -/
theorem buildExecutionOrder_terminates_witness :
    (kahnFinal (registerAll (NewShutdownOrchestrator 0) messyTasks).tasks []).queue = [] ∧
    (buildExecutionOrder (registerAll (NewShutdownOrchestrator 0) messyTasks) []).map
        (fun t => (t.Name, t.Handler.elapsed))
      = [("E", some 2), ("F", some 1)] :=
  ⟨(buildExecutionOrder_terminates (registerAll (NewShutdownOrchestrator 0) messyTasks) []
      0).1, by decide⟩
